import Mathlib

/-!
Verification development for the AutoSub subtitle generator
(`subtitle_generator.py`).

The Python code is shallowly embedded as follows:

* timestamps are exact rationals (`ℚ`); `timedelta.total_seconds` and
  Python float arithmetic are abstracted as exact rational arithmetic,
  whose rounding error (microsecond quantization in `timedelta`,
  binary-float representation) is far below the millisecond tolerance
  every timing claim is stated at;
* strings are `String` / `List Char`; the Python string operations used
  by the code (`str.split`, `str.strip`, `str.replace`, `in`,
  `str.lstrip`, slicing, `%0Nd` formatting, `int()`, `float()` on plain
  decimal literals) are re-implemented on `List Char` below with the
  same semantics;
* code that can raise returns `Option`/`Except`: a `none`/`.error`
  result models an uncaught Python exception propagating to the caller;
* external effects (ffmpeg subprocess, MoviePy video/text-clip objects,
  the Whisper model, the file system) are modelled by explicit
  environment records describing each external call's outcome, and by an
  explicit file-system state threaded through the orchestrator.
-/

/-! ## Python-string primitives on `List Char` -/

/-- Python `str.isspace` / default `str.strip` character class
(ASCII fragment; the claims only involve ASCII text). -/
def pyIsSpace (c : Char) : Bool :=
  c = ' ' || c = '\t' || c = '\n' || c = '\r' || c = '\x0b' || c = '\x0c'

/-- Python `str.strip()` (no argument): drop whitespace from both ends. -/
def pyStripL (l : List Char) : List Char :=
  ((l.dropWhile pyIsSpace).reverse.dropWhile pyIsSpace).reverse

/-- Python `str.strip()` on `String`. -/
def pyStrip (s : String) : String :=
  String.mk (pyStripL s.data)

/-- Fuel-driven worker for `splitSep`; the fuel dominates the input
length at every call, so the fuel-exhausted branch is never taken. -/
def splitSepF (sep : Char × List Char) : ℕ → List Char → List (List Char)
  | _, [] => [[]]
  | 0, a :: rest => [a :: rest]
  | fuel + 1, a :: rest =>
    if (sep.1 :: sep.2).isPrefixOf (a :: rest) then
      [] :: splitSepF sep fuel ((a :: rest).drop (sep.2.length + 1))
    else
      match splitSepF sep fuel rest with
      | [] => [[a]]
      | chunk :: chunks => (a :: chunk) :: chunks

/-- Python `str.split(sep)` for a non-empty separator `sep.1 :: sep.2`:
scan left to right, cut at each non-overlapping occurrence. -/
def splitSep (sep : Char × List Char) (l : List Char) : List (List Char) :=
  splitSepF sep l.length l

/-- Python `pat in s` (substring test). -/
def containsSeq (pat : List Char) : List Char → Bool
  | [] => pat.isPrefixOf []
  | a :: rest => pat.isPrefixOf (a :: rest) || containsSeq pat rest

/-- `'\n'.join` on chunks of characters. -/
def joinNl : List (List Char) → List Char
  | [] => []
  | [c] => c
  | c :: cs => c ++ '\n' :: joinNl cs

/-! ## Decimal rendering and parsing (Python `%d`, `int()`, `float()`) -/

/-- The character of a decimal digit. -/
def digitChar (d : ℕ) : Char := Char.ofNat (48 + d)

/-- Fuel-driven decimal rendering worker (fuel dominates the value, so
the fuel-exhausted branch is never taken). -/
def natCharsAux : ℕ → ℕ → List Char
  | _, 0 => []
  | 0, _ => []
  | fuel + 1, n => natCharsAux fuel (n / 10) ++ [digitChar (n % 10)]

/-- Decimal rendering of a natural number, most significant digit first
(Python `str(n)` for `n ≥ 0`). -/
def natChars (n : ℕ) : List Char :=
  if n = 0 then ['0'] else natCharsAux n n

/-- Zero-pad a digit string on the left to width `w`. -/
def padZeros (w : ℕ) (ds : List Char) : List Char :=
  List.replicate (w - ds.length) '0' ++ ds

/-- Python `format(n, '0Nd')`: zero-padded fixed-width decimal; for
negative numbers the sign counts toward the width. -/
def pad (w : ℕ) (n : ℤ) : List Char :=
  if n < 0 then '-' :: padZeros (w - 1) (natChars n.natAbs)
  else padZeros w (natChars n.toNat)

/-- Numeric value of a digit string (most significant digit first). -/
def digitsVal (l : List Char) : ℕ :=
  l.foldl (fun a c => a * 10 + (c.toNat - 48)) 0

/-- Parse a non-empty all-digit string (helper for `int()`/`float()`). -/
def natParse (l : List Char) : Option ℕ :=
  if l ≠ [] ∧ l.all Char.isDigit then some (digitsVal l) else none

/-- Python `int(s)` on a plain decimal literal (optional sign, digits).
`none` models a raised `ValueError`. -/
def pyIntParse (l : List Char) : Option ℤ :=
  match l with
  | c :: r =>
    if c = '-' then (natParse r).map (fun n => -(n : ℤ))
    else if c = '+' then (natParse r).map (fun n => (n : ℤ))
    else (natParse (c :: r)).map (fun n => (n : ℤ))
  | [] => none

/-- Unsigned part of Python `float(s)` on a plain decimal literal:
`digits`, `digits.digits`, `digits.`, or `.digits`. -/
def pyFloatParseUnsigned (l : List Char) : Option ℚ :=
  let ip := l.takeWhile Char.isDigit
  let rest := l.dropWhile Char.isDigit
  if rest = [] then (if ip = [] then none else some (digitsVal ip))
  else if rest.head? = some '.' then
    let fp := rest.tail
    if (ip ≠ [] ∨ fp ≠ []) ∧ fp.all Char.isDigit then
      some ((digitsVal ip : ℚ) + (digitsVal fp : ℚ) / 10 ^ fp.length)
    else none
  else none

/-- Python `float(s)` on a plain decimal literal.
`none` models a raised `ValueError`. -/
def pyFloatParse (l : List Char) : Option ℚ :=
  match l with
  | c :: r =>
    if c = '-' then (pyFloatParseUnsigned r).map (fun q => -q)
    else if c = '+' then pyFloatParseUnsigned r
    else pyFloatParseUnsigned (c :: r)
  | [] => none

/-- Python `int(x)` on a number: truncation toward zero. -/
def pytrunc (x : ℚ) : ℤ := if 0 ≤ x then ⌊x⌋ else -⌊-x⌋

/-! ## Embedding of `subtitle_generator.py` -/

/-- One timed subtitle segment (a Whisper segment dict / a parsed SRT
block): `start`/`end` in seconds, `text` the caption text. -/
structure Segment where
  start : ℚ
  «end» : ℚ
  text : String
deriving DecidableEq, Repr

/-- `SubtitleGenerator.format_time`: seconds to `HH:MM:SS,mmm`.
Mirrors the source line by line: `divmod(total_seconds, 3600)`,
`divmod(remainder, 60)`, `int((seconds % 1) * 1000)`, and
`f"{int(hours):02d}:{int(minutes):02d}:{int(seconds):02d},{milliseconds:03d}"`. -/
def format_time (seconds : ℚ) : String :=
  let total := seconds
  let hours : ℚ := ↑⌊total / 3600⌋
  let remainder := total - 3600 * hours
  let minutes : ℚ := ↑⌊remainder / 60⌋
  let secs := remainder - 60 * minutes
  let milliseconds := pytrunc ((secs - ↑⌊secs⌋) * 1000)
  String.mk (pad 2 (pytrunc hours) ++ ':' :: pad 2 (pytrunc minutes) ++
    ':' :: pad 2 (pytrunc secs) ++ ',' :: pad 3 milliseconds)

/-- One SRT block body written by `create_srt_file` (without the
trailing blank line): `i`, newline, `start --> end`, newline,
`text.strip()`. -/
def srtCore (i : ℕ) (seg : Segment) : List Char :=
  natChars i ++ '\n' :: (format_time seg.start).data ++
    ' ' :: '-' :: '-' :: '>' :: ' ' :: (format_time seg.«end»).data ++
    '\n' :: pyStripL seg.text.data

/-- The concatenation of the blocks `create_srt_file` writes for the
segments numbered from `i` (each block ends with a blank line). -/
def srtBlocks (i : ℕ) : List Segment → List Char
  | [] => []
  | seg :: rest => srtCore i seg ++ '\n' :: '\n' :: srtBlocks (i + 1) rest

/-- `SubtitleGenerator.create_srt_file`: the full text written to the
SRT file for a transcription result (enumeration starts at 1). -/
def create_srt_content (segments : List Segment) : String :=
  String.mk (srtBlocks 1 segments)

/-- `SubtitleGenerator.parse_time_string`: `HH:MM:SS,mmm` to seconds.
`time_str.replace(',', '.')`, split on `':'`, `int` the first two
fields, `float` the third; `none` models a raised
`ValueError`/`IndexError`. -/
def parse_time_string (time_str : String) : Option ℚ :=
  let repl := time_str.data.map (fun c => if c = ',' then '.' else c)
  let parts := splitSep (':', []) repl
  match parts with
  | p0 :: p1 :: p2 :: _ =>
    match pyIntParse p0, pyIntParse p1, pyFloatParse p2 with
    | some hours, some minutes, some secs =>
      some ((hours : ℚ) * 3600 + (minutes : ℚ) * 60 + secs)
    | _, _, _ => none
  | _ => none

/-- The per-block loop body of `SubtitleGenerator.parse_srt_file`.
A block with fewer than 3 lines, or whose second line lacks `' --> '`,
is skipped; there is no `try`/`except` in the source, so a time-string
that fails to decode, or a time line splitting into more than two
pieces, yields `none` (the exception aborts the whole parse). -/
def parseBlocks : List (List Char) → Option (List Segment)
  | [] => some []
  | block :: rest =>
    match splitSep ('\n', []) (pyStripL block) with
    | _ :: time_line :: t0 :: textRest =>
      if containsSeq [' ', '-', '-', '>', ' '] time_line then
        match splitSep (' ', ['-', '-', '>', ' ']) time_line with
        | [start_str, end_str] =>
          match parse_time_string (String.mk start_str),
                parse_time_string (String.mk end_str) with
          | some s, some e =>
            match parseBlocks rest with
            | some segs =>
              some ({ start := s, «end» := e,
                      text := String.mk (joinNl (t0 :: textRest)) } :: segs)
            | none => none
          | _, _ => none
        | _ => none
      else parseBlocks rest
    | _ => parseBlocks rest

/-- `SubtitleGenerator.parse_srt_file`: strip the whole content, split
into blocks on blank lines, parse each block. `none` models an
exception escaping to the caller. -/
def parse_srt_file (content : String) : Option (List Segment) :=
  parseBlocks (splitSep ('\n', ['\n']) (pyStripL content.data))

/-- The inner `hex_to_ffmpeg` of `add_subtitles_to_video_with_srt`:
`#RRGGBB` to ffmpeg `&HBBGGRR&`; empty or not-`#`-prefixed input falls
back to white. `lstrip('#')` drops every leading `'#'`; slicing is the
(total) Python slice. -/
def hex_to_ffmpeg (hex_color : String) : String :=
  if hex_color.data = [] ∨ hex_color.data.head? ≠ some '#' then "&Hffffff&"
  else
    let stripped := hex_color.data.dropWhile (· = '#')
    let r := stripped.take 2
    let g := (stripped.drop 2).take 2
    let b := (stripped.drop 4).take 2
    String.mk ('&' :: 'H' :: b ++ g ++ r ++ ['&'])

/-- Decimal rendering of an integer (Python `str(n)` / f-string). -/
def intChars (n : ℤ) : List Char :=
  if n < 0 then '-' :: natChars n.natAbs else natChars n.toNat

/-- The optional `style_config` dict: each field `none` when the key is
absent. -/
structure StyleConfig where
  fontSize : Option ℤ := none
  fontColor : Option String := none
  outlineColor : Option String := none
  outlineWidth : Option ℤ := none
  marginV : Option ℤ := none
deriving DecidableEq

/-- Python truthiness of the `style_config` argument: `None` and the
empty dict are falsy. -/
def styleTruthy : Option StyleConfig → Bool
  | none => false
  | some c =>
    c.fontSize.isSome || c.fontColor.isSome || c.outlineColor.isSome ||
      c.outlineWidth.isSome || c.marginV.isSome

/-- The `force_style` string built by `add_subtitles_to_video_with_srt`:
the default style, overridden field by field when a truthy
`style_config` is given. -/
def styleStr (style_config : Option StyleConfig) : String :=
  if styleTruthy style_config then
    match style_config with
    | none => "FontSize=24,PrimaryColour=&Hffffff&,OutlineColour=&H000000&,Outline=2"
    | some c =>
      let font_size := c.fontSize.getD 24
      let primary_color := hex_to_ffmpeg (c.fontColor.getD "#ffffff")
      let outline_color := hex_to_ffmpeg (c.outlineColor.getD "#000000")
      let outline_width := c.outlineWidth.getD 2
      let margin_v := c.marginV.getD 10
      String.mk (("FontSize=".data ++ intChars font_size ++
        ",PrimaryColour=".data ++ primary_color.data ++
        ",OutlineColour=".data ++ outline_color.data ++
        ",Outline=".data ++ intChars outline_width ++
        ",MarginV=".data ++ intChars margin_v))
  else "FontSize=24,PrimaryColour=&Hffffff&,OutlineColour=&H000000&,Outline=2"

/-! ## Compositing engine: external-effect model

The ffmpeg subprocess and the MoviePy objects are external; their
outcomes are supplied by environment records. A `.error e` value models
a Python exception carrying message `e`. -/

/-- Outcome of `subprocess.run(['ffmpeg', ...], check=True)`:
success, `CalledProcessError` with the tool's stderr, or
`FileNotFoundError` (the binary is missing). -/
inductive FfmpegOutcome where
  | success
  | exitError (stderr : String)
  | notFound
deriving DecidableEq, Repr

/-- Outcomes of the external calls one `add_subtitles_to_video_moviepy`
invocation performs: loading the video (giving its `(width, height)`),
constructing a `TextClip` with `method='label'`, constructing the
plain fallback `TextClip`, building the `CompositeVideoClip`, and
`write_videofile`. -/
structure MoviepyEnv where
  videoLoad : Except String (ℕ × ℕ)
  textClipLabel : String → ℚ → ℚ → ℕ × ℕ → Except String Unit
  textClipSimple : String → ℚ → ℚ → Except String Unit
  composite : Except String Unit
  writeVideo : Except String Unit

/-- The data of a constructed subtitle `TextClip`. -/
structure SubClip where
  text : String
  start : ℚ
  «end» : ℚ
  fontsize : ℕ
deriving DecidableEq, Repr

/-- `SubtitleGenerator.create_subtitle_clip`: try the `label` method
(font size `min(height // 20, 48)`); on an exception try the plain clip
(font size 24); if that also raises, return `None`. -/
def create_subtitle_clip (env : MoviepyEnv) (text : String) (start «end» : ℚ)
    (video_size : ℕ × ℕ) : Option SubClip :=
  match env.textClipLabel text start «end» video_size with
  | .ok _ => some { text := text, start := start, «end» := «end»,
                    fontsize := min (video_size.2 / 20) 48 }
  | .error _ =>
    match env.textClipSimple text start «end» with
    | .ok _ => some { text := text, start := start, «end» := «end», fontsize := 24 }
    | .error _ => none

/-- `SubtitleGenerator.add_subtitles_to_video_moviepy` (the fallback
compositor), on the subtitle file content `srtContent`: parse the SRT,
load the video, build one clip per non-empty-text segment (dropping
segments whose clip construction fails), composite only when at least
one clip was built, render, and return the output path. -/
def add_subtitles_to_video_moviepy (env : MoviepyEnv) (srtContent : String)
    (output_path : String) : Except String String :=
  match parse_srt_file srtContent with
  | none => .error "parse_srt_file raised"
  | some subtitles =>
    match env.videoLoad with
    | .error e => .error e
    | .ok video_size =>
      let subtitle_clips := subtitles.filterMap (fun sub =>
        if sub.text ≠ "" then
          create_subtitle_clip env sub.text sub.start sub.«end» video_size
        else none)
      match (if subtitle_clips.isEmpty then Except.ok () else env.composite) with
      | .error e => .error e
      | .ok _ =>
        match env.writeVideo with
        | .error e => .error e
        | .ok _ => .ok output_path

/-- `SubtitleGenerator.add_subtitles_to_video_with_srt`: run ffmpeg; on
a non-zero exit raise `Exception("Failed to add subtitles with FFmpeg: "
+ stderr)`; on `FileNotFoundError` fall back to the MoviePy method. -/
def add_subtitles_to_video_with_srt (ffmpeg : FfmpegOutcome) (env : MoviepyEnv)
    (srtContent : String) (output_path : String) : Except String String :=
  match ffmpeg with
  | .success => .ok output_path
  | .exitError stderr => .error ("Failed to add subtitles with FFmpeg: " ++ stderr)
  | .notFound => add_subtitles_to_video_moviepy env srtContent output_path

/-- Environment of one `add_subtitles_to_video` call: the ffmpeg
outcome, and the MoviePy environments of the first and (possible)
second MoviePy invocation, in call order. -/
structure BurnEnv where
  ffmpeg : FfmpegOutcome
  mp1 : MoviepyEnv
  mp2 : MoviepyEnv

/-- `SubtitleGenerator.add_subtitles_to_video` without its file
effects: try the FFmpeg method; on any exception fall back to the
MoviePy method. When ffmpeg was missing, `_with_srt` already consumed
the first MoviePy invocation, so the `except` branch runs the second. -/
def add_subtitles_to_video (env : BurnEnv) (srtContent : String)
    (output_path : String) : Except String String :=
  match add_subtitles_to_video_with_srt env.ffmpeg env.mp1 srtContent output_path with
  | .ok result => .ok result
  | .error _ =>
    add_subtitles_to_video_moviepy
      (match env.ffmpeg with | .notFound => env.mp2 | _ => env.mp1)
      srtContent output_path

/-! ## Pipeline orchestrator: file-system model -/

/-- File-system events of one pipeline run. `burned c` records that the
compositing step was invoked with subtitle document `c`. -/
inductive Ev where
  | wrote (path content : String)
  | removed (path : String)
  | burned (srtContent : String)
deriving DecidableEq, Repr

/-- File-system state (path to content) plus the event trace. -/
structure PState where
  fs : String → Option String
  trace : List Ev

/-- Write a file (create or overwrite). -/
def pwrite (path content : String) (st : PState) : PState :=
  { fs := fun q => if q = path then some content else st.fs q,
    trace := st.trace ++ [Ev.wrote path content] }

/-- `os.remove`. -/
def premove (path : String) (st : PState) : PState :=
  { fs := fun q => if q = path then none else st.fs q,
    trace := st.trace ++ [Ev.removed path] }

/-- `SubtitleGenerator.add_subtitles_to_video` with its file effects:
write `temp_subtitles.srt` from the transcription, burn from that
file's content, write the output video on success, and in the `finally`
remove the temp SRT if it exists. The burned video's bytes are
abstracted as a tag recording which subtitle document produced them. -/
def add_subtitles_to_video_run (env : BurnEnv) (segments : List Segment)
    (output_path : String) (st : PState) : Except String String × PState :=
  let st1 := pwrite "temp_subtitles.srt" (create_srt_content segments) st
  let srtContent := (st1.fs "temp_subtitles.srt").getD ""
  let st2 : PState := { st1 with trace := st1.trace ++ [Ev.burned srtContent] }
  let res := add_subtitles_to_video env srtContent output_path
  let st3 := match res with
    | .ok _ => pwrite output_path ("video:" ++ srtContent) st2
    | .error _ => st2
  let st4 := if (st3.fs "temp_subtitles.srt").isSome
    then premove "temp_subtitles.srt" st3 else st3
  (res, st4)

/-- Environment of one `generate_subtitles` run: the outcome of audio
extraction (the extracted audio content, or the exception raised before
the audio file is written), the outcome of transcription, and the
compositing environment. -/
structure PipelineEnv where
  extractAudio : Except String String
  transcribe : Except String (List Segment)
  burn : BurnEnv

/-- `SubtitleGenerator.generate_subtitles`: extract audio to
`temp_audio.wav`, transcribe, write the SRT to `output_srt_path`, burn
the subtitles into `output_video_path`, and in the `finally` remove
`temp_audio.wav` when `cleanup_temp` is set and the file exists. -/
def generate_subtitles (env : PipelineEnv) (output_video_path output_srt_path : String)
    (cleanup_temp : Bool) (st0 : PState) :
    Except String (String × String) × PState :=
  let core : Except String (String × String) × PState :=
    match env.extractAudio with
    | .error e => (.error e, st0)
    | .ok audio =>
      let st1 := pwrite "temp_audio.wav" audio st0
      match env.transcribe with
      | .error e => (.error e, st1)
      | .ok segments =>
        let st2 := pwrite output_srt_path (create_srt_content segments) st1
        match add_subtitles_to_video_run env.burn segments output_video_path st2 with
        | (.error e, st3) => (.error e, st3)
        | (.ok _, st3) => (.ok (output_video_path, output_srt_path), st3)
  let stf := core.2
  (core.1,
   if cleanup_temp ∧ (stf.fs "temp_audio.wav").isSome
   then premove "temp_audio.wav" stf else stf)

/-! ## Lemmas about the string primitives -/

theorem digitChar_toNat {d : ℕ} (hd : d < 10) : (digitChar d).toNat = 48 + d := by
  interval_cases d <;> decide

theorem digitChar_isDigit {d : ℕ} (hd : d < 10) : (digitChar d).isDigit = true := by
  interval_cases d <;> decide

theorem isDigit_toNat {c : Char} (h : c.isDigit = true) :
    48 ≤ c.toNat ∧ c.toNat ≤ 57 := by
  simp only [Char.isDigit, Bool.and_eq_true, decide_eq_true_eq] at h
  exact ⟨h.1, h.2⟩

theorem isDigit_ne {c : Char} (h : c.isDigit = true) :
    c ≠ '\n' ∧ c ≠ ':' ∧ c ≠ ' ' ∧ c ≠ ',' ∧ c ≠ '.' ∧ c ≠ '-' ∧ c ≠ '+' ∧
      pyIsSpace c = false := by
  obtain ⟨h1, h2⟩ := isDigit_toNat h
  have hne : ∀ x : Char, x.toNat < 48 → c ≠ x := by
    intro x hx he
    subst he
    omega
  have hne2 : ∀ x : Char, 57 < x.toNat → c ≠ x := by
    intro x hx he
    subst he
    omega
  refine ⟨hne _ (by decide), hne2 _ (by decide), hne _ (by decide), hne _ (by decide),
    hne _ (by decide), hne _ (by decide), hne _ (by decide), ?_⟩
  simp only [pyIsSpace, Bool.or_eq_false_iff, decide_eq_false_iff_not]
  refine ⟨⟨⟨⟨⟨hne _ (by decide), hne _ (by decide)⟩, hne _ (by decide)⟩,
    hne _ (by decide)⟩, hne _ (by decide)⟩, hne _ (by decide)⟩

theorem natCharsAux_eq (fuel : ℕ) :
    ∀ n : ℕ, n ≤ fuel → natCharsAux fuel n = ((Nat.digits 10 n).map digitChar).reverse := by
  induction fuel with
  | zero =>
    intro n hn
    have : n = 0 := Nat.le_zero.mp hn
    subst this
    rw [Nat.digits_zero]
    rfl
  | succ f ih =>
    intro n hn
    rcases n with _ | m
    · rw [Nat.digits_zero]
      rfl
    · show natCharsAux f ((m + 1) / 10) ++ [digitChar ((m + 1) % 10)] = _
      rw [Nat.digits_def' (by norm_num : (1 : ℕ) < 10) (Nat.succ_pos m)]
      rw [List.map_cons, List.reverse_cons]
      rw [ih ((m + 1) / 10) (by
        have := Nat.div_lt_self (Nat.succ_pos m) (by norm_num : (1 : ℕ) < 10)
        omega)]

theorem natChars_eq (n : ℕ) :
    natChars n = if n = 0 then ['0']
      else ((Nat.digits 10 n).map digitChar).reverse := by
  unfold natChars
  split
  · rfl
  · exact natCharsAux_eq n n (Nat.le_refl n)

theorem natChars_all_digit {n : ℕ} : ∀ c ∈ natChars n, c.isDigit = true := by
  intro c hc
  rw [natChars_eq] at hc
  split at hc
  · simp at hc
    subst hc
    decide
  · simp only [List.mem_reverse, List.mem_map] at hc
    obtain ⟨d, hd, rfl⟩ := hc
    exact digitChar_isDigit (Nat.digits_lt_base (by norm_num) hd)

theorem natChars_ne_nil {n : ℕ} : natChars n ≠ [] := by
  rw [natChars_eq]
  split
  · simp
  · simp [Nat.digits_ne_nil_iff_ne_zero, *]

theorem padZeros_all_digit {w : ℕ} {ds : List Char}
    (h : ∀ c ∈ ds, c.isDigit = true) : ∀ c ∈ padZeros w ds, c.isDigit = true := by
  intro c hc
  unfold padZeros at hc
  rcases List.mem_append.mp hc with hc | hc
  · have := List.eq_of_mem_replicate hc
    subst this
    decide
  · exact h c hc

theorem padZeros_ne_nil {w : ℕ} {ds : List Char} (h : ds ≠ []) :
    padZeros w ds ≠ [] := by
  unfold padZeros
  simp [h]

theorem padZeros_length {w : ℕ} {ds : List Char} (h : ds.length ≤ w) :
    (padZeros w ds).length = w := by
  unfold padZeros
  simp only [List.length_append, List.length_replicate]
  omega

theorem digitsVal_foldl (b : List Char) (acc : ℕ) :
    List.foldl (fun a c => a * 10 + (c.toNat - 48)) acc b =
      acc * 10 ^ b.length + List.foldl (fun a c => a * 10 + (c.toNat - 48)) 0 b := by
  induction b generalizing acc with
  | nil => simp
  | cons c b ih =>
    simp only [List.foldl_cons, List.length_cons]
    rw [ih (acc * 10 + (c.toNat - 48)), ih (0 * 10 + (c.toNat - 48))]
    ring

theorem digitsVal_append (a b : List Char) :
    digitsVal (a ++ b) = digitsVal a * 10 ^ b.length + digitsVal b := by
  unfold digitsVal
  rw [List.foldl_append, digitsVal_foldl]

theorem digitsVal_replicate_zero (k : ℕ) :
    digitsVal (List.replicate k '0') = 0 := by
  induction k with
  | zero => rfl
  | succ k ih =>
    rw [List.replicate_succ]
    unfold digitsVal at ih ⊢
    simpa using ih

theorem digitsVal_padZeros (w : ℕ) (ds : List Char) :
    digitsVal (padZeros w ds) = digitsVal ds := by
  unfold padZeros
  rw [digitsVal_append, digitsVal_replicate_zero]
  simp

theorem digitsVal_natChars (n : ℕ) : digitsVal (natChars n) = n := by
  have key : ∀ ds : List ℕ, (∀ d ∈ ds, d < 10) →
      digitsVal ((ds.map digitChar).reverse) = Nat.ofDigits 10 ds := by
    intro ds hds
    induction ds with
    | nil => rfl
    | cons d ds ih =>
      simp only [List.map_cons, List.reverse_cons]
      rw [digitsVal_append, ih (fun x hx => hds x (List.mem_cons_of_mem _ hx)),
        Nat.ofDigits_cons]
      have hd : d < 10 := hds d (List.mem_cons_self d ds)
      have : digitsVal [digitChar d] = d := by
        unfold digitsVal
        simp [digitChar_toNat hd]
      rw [this]
      simp
      ring
  rw [natChars_eq]
  split
  · subst ‹n = 0›
    rfl
  · rw [key _ (fun d hd => Nat.digits_lt_base (by norm_num) hd),
      Nat.ofDigits_digits]

theorem natChars_length_le {n k : ℕ} (hk : 1 ≤ k) (hn : n < 10 ^ k) :
    (natChars n).length ≤ k := by
  rw [natChars_eq]
  split
  · simpa
  · rename_i h0
    simp only [List.length_reverse, List.length_map]
    by_contra hlen
    push_neg at hlen
    have hle : 10 ^ (Nat.digits 10 n).length ≤ 10 * n :=
      Nat.base_pow_length_digits_le 10 n (by norm_num) h0
    have h2 : (10 : ℕ) ^ (k + 1) ≤ 10 ^ (Nat.digits 10 n).length :=
      Nat.pow_le_pow_right (by norm_num) hlen
    have h3 : 10 * n < 10 * 10 ^ k := by omega
    rw [pow_succ] at h2
    omega

/-- Prepend `a` to the first chunk of a split result. -/
def consHead (a : List Char) : List (List Char) → List (List Char)
  | [] => [a]
  | chunk :: chunks => (a ++ chunk) :: chunks

theorem splitSep_nil (sep : Char × List Char) : splitSep sep [] = [[]] := rfl

theorem splitSepF_fuel (sep : Char × List Char) (fuel₁ : ℕ) :
    ∀ (fuel₂ : ℕ) (l : List Char), l.length ≤ fuel₁ → l.length ≤ fuel₂ →
      splitSepF sep fuel₁ l = splitSepF sep fuel₂ l := by
  induction fuel₁ with
  | zero =>
    intro fuel₂ l h1 h2
    have : l = [] := List.length_eq_zero.mp (Nat.le_zero.mp h1)
    subst this
    rcases fuel₂ with _ | f2 <;> rfl
  | succ f ih =>
    intro fuel₂ l h1 h2
    rcases l with _ | ⟨a, rest⟩
    · rcases fuel₂ with _ | f2 <;> rfl
    · rcases fuel₂ with _ | f2
      · simp at h2
      · have hr : rest.length ≤ f := by
          simp only [List.length_cons] at h1
          omega
        have hr2 : rest.length ≤ f2 := by
          simp only [List.length_cons] at h2
          omega
        have hd : ((a :: rest).drop (sep.2.length + 1)).length ≤ f := by
          simp only [List.length_drop, List.length_cons]
          omega
        have hd2 : ((a :: rest).drop (sep.2.length + 1)).length ≤ f2 := by
          simp only [List.length_drop, List.length_cons]
          omega
        have e1 := ih f2 ((a :: rest).drop (sep.2.length + 1)) hd hd2
        have e2 := ih f2 rest hr hr2
        show (if (sep.1 :: sep.2).isPrefixOf (a :: rest) then
            [] :: splitSepF sep f ((a :: rest).drop (sep.2.length + 1))
          else match splitSepF sep f rest with
            | [] => [[a]]
            | chunk :: chunks => (a :: chunk) :: chunks) =
          (if (sep.1 :: sep.2).isPrefixOf (a :: rest) then
            [] :: splitSepF sep f2 ((a :: rest).drop (sep.2.length + 1))
          else match splitSepF sep f2 rest with
            | [] => [[a]]
            | chunk :: chunks => (a :: chunk) :: chunks)
        rw [e1, e2]

theorem splitSepF_eq (sep : Char × List Char) {fuel : ℕ} {l : List Char}
    (h : l.length ≤ fuel) : splitSepF sep fuel l = splitSep sep l :=
  splitSepF_fuel sep fuel l.length l h (Nat.le_refl _)

theorem splitSep_cons (sep : Char × List Char) (a : Char) (rest : List Char) :
    splitSep sep (a :: rest) =
      if (sep.1 :: sep.2).isPrefixOf (a :: rest) then
        [] :: splitSep sep ((a :: rest).drop (sep.2.length + 1))
      else consHead [a] (splitSep sep rest) := by
  have hU : splitSep sep (a :: rest) =
      (if (sep.1 :: sep.2).isPrefixOf (a :: rest) then
        [] :: splitSepF sep rest.length ((a :: rest).drop (sep.2.length + 1))
      else match splitSepF sep rest.length rest with
        | [] => [[a]]
        | chunk :: chunks => (a :: chunk) :: chunks) := rfl
  rw [hU, splitSepF_eq sep (by
      simp only [List.length_drop, List.length_cons]
      omega),
    splitSepF_eq sep (Nat.le_refl _)]
  split
  · rfl
  · rcases hs : splitSep sep rest with _ | ⟨chunk, chunks⟩ <;> simp [consHead]

theorem splitSep_ne_nil (sep : Char × List Char) (l : List Char) :
    splitSep sep l ≠ [] := by
  rcases l with _ | ⟨a, rest⟩
  · simp [splitSep_nil]
  · rw [splitSep_cons]
    split
    · simp
    · rcases h : splitSep sep rest with _ | ⟨c, cs⟩ <;> simp [consHead]

theorem consHead_consHead (a b : List Char) (r : List (List Char)) :
    consHead a (consHead b r) = consHead (a ++ b) r := by
  rcases r with _ | ⟨c, cs⟩ <;> simp [consHead]

theorem splitSep_append_not_mem {c0 : Char} {cs a : List Char} (x : List Char)
    (h : c0 ∉ a) : splitSep (c0, cs) (a ++ x) = consHead a (splitSep (c0, cs) x) := by
  induction a with
  | nil =>
    rcases h : splitSep (c0, cs) x with _ | ⟨c, r⟩
    · exact absurd h (splitSep_ne_nil _ _)
    · rw [List.nil_append, h]
      simp [consHead]
  | cons b a ih =>
    have hb : b ≠ c0 := fun he => h (he ▸ List.mem_cons_self b a)
    have hnp : ¬(c0 :: cs).isPrefixOf (b :: (a ++ x)) = true := by
      intro hp
      obtain ⟨t, ht⟩ := List.isPrefixOf_iff_prefix.mp hp
      rw [List.cons_append] at ht
      injection ht with h1 h2
      exact hb h1.symm
    rw [List.cons_append, splitSep_cons, if_neg hnp,
      ih (fun hm => h (List.mem_cons_of_mem _ hm)), consHead_consHead]
    rfl

theorem splitSep_single {c0 : Char} {cs a : List Char} (h : c0 ∉ a) :
    splitSep (c0, cs) a = [a] := by
  have := @splitSep_append_not_mem c0 cs a [] h
  rw [List.append_nil] at this
  rw [this, splitSep_nil]
  simp [consHead]

theorem splitSep_boundary {c0 : Char} {cs a : List Char} (x : List Char)
    (h : c0 ∉ a) :
    splitSep (c0, cs) (a ++ (c0 :: cs) ++ x) = a :: splitSep (c0, cs) x := by
  rw [List.append_assoc, splitSep_append_not_mem _ h]
  have hpre : (c0 :: cs).isPrefixOf ((c0 :: cs) ++ x) = true :=
    List.isPrefixOf_iff_prefix.mpr (List.prefix_append _ _)
  have : splitSep (c0, cs) ((c0 :: cs) ++ x) = [] :: splitSep (c0, cs) x := by
    rw [List.cons_append, splitSep_cons]
    rw [← List.cons_append]
    rw [if_pos hpre]
    congr 1
    have : ((c0 :: cs) ++ x).drop (cs.length + 1) = x := by
      have h2 := List.drop_left (c0 :: cs) x
      simp only [List.length_cons] at h2
      exact h2
    rw [this]
  rw [this]
  simp [consHead]

/-- No two adjacent newlines, and the final character (if any) is not a
newline: such a chunk survives a split on a blank line. -/
def nnFree : List Char → Bool
  | [] => true
  | [c] => c != '\n'
  | a :: b :: rest => !(a == '\n' && b == '\n') && nnFree (b :: rest)

theorem nnFree_of_not_mem {l : List Char} (h : '\n' ∉ l) : nnFree l = true := by
  induction l with
  | nil => rfl
  | cons a t ih =>
    have ha : a ≠ '\n' := fun he => h (he ▸ List.mem_cons_self a t)
    have ht : '\n' ∉ t := fun hm => h (List.mem_cons_of_mem _ hm)
    rcases t with _ | ⟨b, rest⟩
    · simp [nnFree, ha]
    · rw [nnFree]
      simp only [Bool.and_eq_true, Bool.not_eq_true']
      exact ⟨by simp [ha], ih ht⟩

theorem nnFree_append {a b : List Char} (ha : '\n' ∉ a) (hb : nnFree b = true) :
    nnFree (a ++ b) = true := by
  induction a with
  | nil => exact hb
  | cons c t ih =>
    have hc : c ≠ '\n' := fun he => ha (he ▸ List.mem_cons_self c t)
    have ht : '\n' ∉ t := fun hm => ha (List.mem_cons_of_mem _ hm)
    have htb := ih ht
    rw [List.cons_append]
    rcases ht2 : t ++ b with _ | ⟨d, rest⟩
    · simp [nnFree, hc]
    · rw [ht2] at htb
      rw [nnFree, htb]
      simp [hc]

theorem nnFree_cons_nl {b : List Char} (hne : b ≠ [])
    (hhead : b.head? ≠ some '\n') (hb : nnFree b = true) :
    nnFree ('\n' :: b) = true := by
  rcases b with _ | ⟨d, rest⟩
  · exact absurd rfl hne
  · have hd : d ≠ '\n' := by
      intro he
      exact hhead (by simp [he])
    rw [nnFree, hb]
    simp [hd]

theorem splitSep_nn_boundary {a : List Char} (x : List Char)
    (h : nnFree a = true) :
    splitSep ('\n', ['\n']) (a ++ '\n' :: '\n' :: x) =
      a :: splitSep ('\n', ['\n']) x := by
  induction a with
  | nil =>
    rw [List.nil_append]
    have : ('\n' :: ['\n']).isPrefixOf ('\n' :: '\n' :: x) = true := by
      simp [List.isPrefixOf]
    rw [splitSep_cons, if_pos this]
    simp
  | cons c t ih =>
    rcases t with _ | ⟨d, rest⟩
    · have hc : c ≠ '\n' := by simpa [nnFree] using h
      rw [List.cons_append, List.nil_append, splitSep_cons, if_neg ?hnp]
      case hnp =>
        intro hp
        obtain ⟨u, hu⟩ := List.isPrefixOf_iff_prefix.mp hp
        rw [List.cons_append] at hu
        injection hu with h1 h2
        exact hc h1.symm
      have hsp : splitSep ('\n', ['\n']) ('\n' :: '\n' :: x) =
          [] :: splitSep ('\n', ['\n']) x := by
        have hpre : (('\n' : Char) :: ['\n']).isPrefixOf ('\n' :: '\n' :: x) = true := by
          simp [List.isPrefixOf]
        rw [splitSep_cons, if_pos hpre]
        simp
      rw [hsp]
      simp [consHead]
    · rw [nnFree] at h
      simp only [Bool.and_eq_true, Bool.not_eq_true'] at h
      obtain ⟨hcd, ht⟩ := h
      rw [List.cons_append, splitSep_cons, if_neg ?hnp2]
      case hnp2 =>
        intro hp
        obtain ⟨u, hu⟩ := List.isPrefixOf_iff_prefix.mp hp
        rw [List.cons_append] at hu
        injection hu with h1 h2
        rw [List.cons_append, List.cons_append] at h2
        injection h2 with h3 h4
        simp [h1.symm, h3.symm] at hcd
      rw [ih ht]
      simp [consHead]

theorem splitSep_nn_single {a : List Char} (h : nnFree a = true) :
    splitSep ('\n', ['\n']) a = [a] := by
  induction a with
  | nil => exact splitSep_nil _
  | cons c t ih =>
    rcases t with _ | ⟨d, rest⟩
    · have hc : c ≠ '\n' := by simpa [nnFree] using h
      refine splitSep_single ?_
      simp only [List.mem_singleton]
      exact fun he => hc he.symm
    · rw [nnFree] at h
      simp only [Bool.and_eq_true, Bool.not_eq_true'] at h
      obtain ⟨hcd, ht⟩ := h
      rw [splitSep_cons, if_neg ?hnp3]
      case hnp3 =>
        intro hp
        obtain ⟨u, hu⟩ := List.isPrefixOf_iff_prefix.mp hp
        rw [List.cons_append] at hu
        injection hu with h1 h2
        rw [List.cons_append] at h2
        injection h2 with h3 h4
        simp [h1.symm, h3.symm] at hcd
      rw [ih ht]
      simp [consHead]

theorem containsSeq_append_pat (pat a b : List Char) :
    containsSeq pat (a ++ pat ++ b) = true := by
  induction a with
  | nil =>
    rw [List.nil_append]
    have hpre : pat.isPrefixOf (pat ++ b) = true :=
      List.isPrefixOf_iff_prefix.mpr (List.prefix_append _ _)
    rcases hpb : pat ++ b with _ | ⟨c, r⟩
    · rw [containsSeq]
      rw [hpb] at hpre
      exact hpre
    · rw [containsSeq]
      rw [hpb] at hpre
      simp [hpre]
  | cons c t ih =>
    rw [List.cons_append, List.cons_append, containsSeq]
    rw [List.append_assoc] at ih ⊢
    simp [ih]

theorem pyStripL_id {l : List Char} (h1 : ∀ c, l.head? = some c → pyIsSpace c = false)
    (h2 : ∀ c, l.getLast? = some c → pyIsSpace c = false) : pyStripL l = l := by
  unfold pyStripL
  rcases hl : l with _ | ⟨a, t⟩
  · rfl
  · have ha : pyIsSpace a = false := h1 a (by rw [hl]; rfl)
    rw [List.dropWhile_cons, ha]
    simp only [Bool.false_eq_true, if_false]
    rcases hr : (a :: t).reverse with _ | ⟨b, rt⟩
    · exact absurd hr (by simp)
    · have hb : pyIsSpace b = false := by
        refine h2 b ?_
        rw [hl, List.getLast?_eq_head?_reverse, hr]
        rfl
      rw [List.dropWhile_cons, hb]
      simp only [Bool.false_eq_true, if_false]
      rw [← hr, List.reverse_reverse]

theorem pyStripL_append_nn {l : List Char} (a : Char) (t : List Char)
    (hl : l = a :: t) (h1 : pyIsSpace a = false)
    (h2 : ∀ c, l.getLast? = some c → pyIsSpace c = false) :
    pyStripL (l ++ ['\n', '\n']) = l := by
  unfold pyStripL
  rw [hl]
  rw [List.cons_append, List.dropWhile_cons, h1]
  simp only [Bool.false_eq_true, if_false]
  rw [← List.cons_append, List.reverse_append]
  have hrev : (['\n', '\n'] : List Char).reverse = ['\n', '\n'] := rfl
  rw [hrev]
  rcases hr : (a :: t).reverse with _ | ⟨b, rt⟩
  · exact absurd hr (by simp)
  · have hb : pyIsSpace b = false := by
      refine h2 b ?_
      rw [hl, List.getLast?_eq_head?_reverse, hr]
      rfl
    have hnl : pyIsSpace '\n' = true := by decide
    show ((('\n' :: '\n' :: b :: rt : List Char)).dropWhile pyIsSpace).reverse = a :: t
    rw [List.dropWhile_cons, hnl, if_pos rfl, List.dropWhile_cons, hnl, if_pos rfl,
      List.dropWhile_cons, hb]
    simp only [Bool.false_eq_true, if_false]
    rw [← hr, List.reverse_reverse]

theorem natParse_digits {l : List Char} (hne : l ≠ [])
    (h : ∀ c ∈ l, c.isDigit = true) : natParse l = some (digitsVal l) := by
  unfold natParse
  rw [if_pos ⟨hne, List.all_eq_true.mpr h⟩]

theorem pyIntParse_digits {l : List Char} (hne : l ≠ [])
    (h : ∀ c ∈ l, c.isDigit = true) : pyIntParse l = some ((digitsVal l : ℤ)) := by
  rcases l with _ | ⟨c, r⟩
  · exact absurd rfl hne
  · have hc := h c (List.mem_cons_self c r)
    obtain ⟨-, -, -, -, -, hminus, hplus, -⟩ := isDigit_ne hc
    show (if c = '-' then (natParse r).map (fun n => -(n : ℤ))
      else if c = '+' then (natParse r).map (fun n => (n : ℤ))
      else (natParse (c :: r)).map (fun n => (n : ℤ))) = _
    rw [if_neg hminus, if_neg hplus, natParse_digits hne h]
    rfl

theorem takeWhile_digits_dot (a fp : List Char) (ha : ∀ c ∈ a, c.isDigit = true) :
    (a ++ '.' :: fp).takeWhile Char.isDigit = a ∧
      (a ++ '.' :: fp).dropWhile Char.isDigit = '.' :: fp := by
  induction a with
  | nil =>
    have hdot : ('.' : Char).isDigit = false := by decide
    constructor
    · rw [List.nil_append, List.takeWhile_cons, hdot]
      simp
    · rw [List.nil_append, List.dropWhile_cons, hdot]
      simp
  | cons c t ih =>
    have hc := ha c (List.mem_cons_self c t)
    have ht := ih (fun x hx => ha x (List.mem_cons_of_mem _ hx))
    constructor
    · rw [List.cons_append, List.takeWhile_cons, hc, if_pos rfl, ht.1]
    · rw [List.cons_append, List.dropWhile_cons, hc, if_pos rfl, ht.2]

theorem pyFloatParse_decimal {ip fp : List Char} (hip : ip ≠ [])
    (hipd : ∀ c ∈ ip, c.isDigit = true) (hfpd : ∀ c ∈ fp, c.isDigit = true) :
    pyFloatParse (ip ++ '.' :: fp) =
      some ((digitsVal ip : ℚ) + (digitsVal fp : ℚ) / 10 ^ fp.length) := by
  rcases ip with _ | ⟨c, r⟩
  · exact absurd rfl hip
  · have hc := hipd c (List.mem_cons_self c r)
    obtain ⟨-, -, -, -, -, hminus, hplus, -⟩ := isDigit_ne hc
    show (if c = '-' then _ else if c = '+' then _
      else pyFloatParseUnsigned (c :: r ++ '.' :: fp)) = _
    rw [if_neg hminus, if_neg hplus]
    obtain ⟨htake, hdrop⟩ := takeWhile_digits_dot (c :: r) fp hipd
    unfold pyFloatParseUnsigned
    simp only [htake, hdrop]
    simp [List.all_eq_true.mpr hfpd]

theorem takeWhile_digits_all (l : List Char) (h : ∀ c ∈ l, c.isDigit = true) :
    l.takeWhile Char.isDigit = l ∧ l.dropWhile Char.isDigit = [] := by
  induction l with
  | nil => exact ⟨rfl, rfl⟩
  | cons c t ih =>
    have hc := h c (List.mem_cons_self c t)
    have ht := ih (fun x hx => h x (List.mem_cons_of_mem _ hx))
    exact ⟨by rw [List.takeWhile_cons, hc, if_pos rfl, ht.1],
           by rw [List.dropWhile_cons, hc, if_pos rfl, ht.2]⟩

theorem pyFloatParse_digits {l : List Char} (hne : l ≠ [])
    (h : ∀ c ∈ l, c.isDigit = true) :
    pyFloatParse l = some ((digitsVal l : ℚ)) := by
  rcases l with _ | ⟨c, r⟩
  · exact absurd rfl hne
  · have hc := h c (List.mem_cons_self c r)
    obtain ⟨-, -, -, -, -, hminus, hplus, -⟩ := isDigit_ne hc
    show (if c = '-' then _ else if c = '+' then _
      else pyFloatParseUnsigned (c :: r)) = _
    rw [if_neg hminus, if_neg hplus]
    obtain ⟨htake, hdrop⟩ := takeWhile_digits_all (c :: r) h
    unfold pyFloatParseUnsigned
    simp only [htake, hdrop]
    simp

/-! ## The time-code codec round trip -/

theorem pytrunc_of_nonneg {x : ℚ} (h : 0 ≤ x) : pytrunc x = ⌊x⌋ := if_pos h

theorem pytrunc_intCast (n : ℤ) : pytrunc (n : ℚ) = n := by
  unfold pytrunc
  split
  · exact Int.floor_intCast n
  · rw [← Int.cast_neg, Int.floor_intCast]
    ring

/-- The hours field computed by `format_time`. -/
def ftHours (t : ℚ) : ℤ := ⌊t / 3600⌋

/-- The remainder after removing whole hours. -/
def ftRem (t : ℚ) : ℚ := t - 3600 * (ftHours t : ℚ)

/-- The minutes field computed by `format_time`. -/
def ftMin (t : ℚ) : ℤ := ⌊ftRem t / 60⌋

/-- The seconds value (with fraction) computed by `format_time`. -/
def ftSecs (t : ℚ) : ℚ := ftRem t - 60 * (ftMin t : ℚ)

/-- The milliseconds field computed by `format_time`. -/
def ftMs (t : ℚ) : ℤ := ⌊(ftSecs t - (⌊ftSecs t⌋ : ℚ)) * 1000⌋

theorem ftRem_nonneg (t : ℚ) : 0 ≤ ftRem t := by
  have h := Int.floor_le (t / 3600)
  unfold ftRem ftHours
  have h2 : (3600 : ℚ) * (⌊t / 3600⌋ : ℚ) ≤ 3600 * (t / 3600) := by
    apply mul_le_mul_of_nonneg_left h
    norm_num
  have h3 : (3600 : ℚ) * (t / 3600) = t := by ring
  linarith

theorem ftSecs_nonneg (t : ℚ) : 0 ≤ ftSecs t := by
  have h := Int.floor_le (ftRem t / 60)
  unfold ftSecs ftMin
  have h2 : (60 : ℚ) * (⌊ftRem t / 60⌋ : ℚ) ≤ 60 * (ftRem t / 60) := by
    apply mul_le_mul_of_nonneg_left h
    norm_num
  have h3 : (60 : ℚ) * (ftRem t / 60) = ftRem t := by ring
  linarith

theorem ftHours_nonneg {t : ℚ} (ht : 0 ≤ t) : 0 ≤ ftHours t :=
  Int.floor_nonneg.mpr (by positivity)

theorem ftMin_nonneg (t : ℚ) : 0 ≤ ftMin t :=
  Int.floor_nonneg.mpr (by
    have := ftRem_nonneg t
    positivity)

theorem floor_ftSecs_nonneg (t : ℚ) : 0 ≤ ⌊ftSecs t⌋ :=
  Int.floor_nonneg.mpr (ftSecs_nonneg t)

theorem ftMs_nonneg (t : ℚ) : 0 ≤ ftMs t := by
  refine Int.floor_nonneg.mpr ?_
  have h := Int.floor_le (ftSecs t)
  nlinarith

theorem ftMs_lt (t : ℚ) : ftMs t < 1000 := by
  have h := Int.lt_floor_add_one (ftSecs t)
  have hlt : (ftSecs t - (⌊ftSecs t⌋ : ℚ)) * 1000 < 1000 := by nlinarith
  exact Int.floor_lt.mpr (by exact_mod_cast hlt)

theorem format_time_data (t : ℚ) :
    (format_time t).data =
      pad 2 (ftHours t) ++ ':' :: pad 2 (ftMin t) ++ ':' :: pad 2 ⌊ftSecs t⌋ ++
        ',' :: pad 3 (ftMs t) := by
  have hX := ftSecs_nonneg t
  have hfl := Int.floor_le (ftSecs t)
  have hY : 0 ≤ (ftSecs t - (⌊ftSecs t⌋ : ℚ)) * 1000 := by nlinarith
  unfold ftMs ftSecs ftMin ftRem ftHours at hX hY ⊢
  simp only [format_time, pytrunc_intCast]
  rw [pytrunc_of_nonneg hX, pytrunc_of_nonneg hY]

theorem pad_of_nonneg {w : ℕ} {n : ℤ} (h : 0 ≤ n) :
    pad w n = padZeros w (natChars n.toNat) := by
  unfold pad
  rw [if_neg (not_lt.mpr h)]

theorem pad_all_digit {w : ℕ} {n : ℤ} (h : 0 ≤ n) :
    ∀ c ∈ pad w n, c.isDigit = true := by
  rw [pad_of_nonneg h]
  exact padZeros_all_digit natChars_all_digit

theorem pad_ne_nil {w : ℕ} {n : ℤ} (h : 0 ≤ n) : pad w n ≠ [] := by
  rw [pad_of_nonneg h]
  exact padZeros_ne_nil natChars_ne_nil

theorem digitsVal_pad {w : ℕ} {n : ℤ} (h : 0 ≤ n) :
    digitsVal (pad w n) = n.toNat := by
  rw [pad_of_nonneg h, digitsVal_padZeros, digitsVal_natChars]

theorem pad_length {w : ℕ} {n : ℤ} (h : 0 ≤ n) (hw : 1 ≤ w)
    (hn : n.toNat < 10 ^ w) : (pad w n).length = w := by
  rw [pad_of_nonneg h]
  exact padZeros_length (natChars_length_le hw hn)

theorem not_mem_of_all_digit {l : List Char} (h : ∀ c ∈ l, c.isDigit = true) :
    ':' ∉ l ∧ '\n' ∉ l ∧ ' ' ∉ l := by
  refine ⟨fun hm => ?_, fun hm => ?_, fun hm => ?_⟩ <;>
    exact absurd (h _ hm) (by decide)

theorem map_repl_digits {l : List Char} (h : ∀ c ∈ l, c.isDigit = true) :
    l.map (fun c => if c = ',' then '.' else c) = l := by
  have : ∀ c ∈ l, (fun c => if c = ',' then '.' else c) c = id c := by
    intro c hc
    obtain ⟨-, -, -, hcomma, -⟩ := isDigit_ne (h c hc)
    simp [hcomma]
  rw [List.map_congr_left this, List.map_id]

theorem ft_value (t : ℚ) :
    ((ftHours t : ℚ)) * 3600 + (ftMin t : ℚ) * 60 +
      ((⌊ftSecs t⌋ : ℚ) + (ftMs t : ℚ) / 1000) = (⌊t * 1000⌋ : ℚ) / 1000 := by
  have hK : t - ((3600 * ftHours t + 60 * ftMin t + ⌊ftSecs t⌋ : ℤ) : ℚ) =
      ftSecs t - (⌊ftSecs t⌋ : ℚ) := by
    unfold ftSecs ftRem ftMin ftHours
    push_cast
    ring
  have hMs : ftMs t = ⌊t * 1000⌋ - 1000 * (3600 * ftHours t + 60 * ftMin t + ⌊ftSecs t⌋) := by
    unfold ftMs
    rw [← hK]
    have harg : (t - ((3600 * ftHours t + 60 * ftMin t + ⌊ftSecs t⌋ : ℤ) : ℚ)) * 1000 =
        t * 1000 - ((1000 * (3600 * ftHours t + 60 * ftMin t + ⌊ftSecs t⌋) : ℤ) : ℚ) := by
      push_cast
      ring
    rw [harg, Int.floor_sub_int]
  rw [hMs]
  push_cast
  ring

theorem parse_format {t : ℚ} (ht : 0 ≤ t) :
    parse_time_string (format_time t) = some ((⌊t * 1000⌋ : ℚ) / 1000) := by
  have hH := ftHours_nonneg ht
  have hM := ftMin_nonneg t
  have hS := floor_ftSecs_nonneg t
  have hMs0 := ftMs_nonneg t
  have hMs1 := ftMs_lt t
  have hmap : (pad 2 (ftHours t) ++ ':' :: pad 2 (ftMin t) ++ ':' :: pad 2 ⌊ftSecs t⌋ ++
        ',' :: pad 3 (ftMs t)).map (fun c => if c = ',' then '.' else c) =
      pad 2 (ftHours t) ++ ':' :: pad 2 (ftMin t) ++
        ':' :: (pad 2 ⌊ftSecs t⌋ ++ '.' :: pad 3 (ftMs t)) := by
    simp only [List.map_append, List.map_cons]
    rw [map_repl_digits (pad_all_digit hH), map_repl_digits (pad_all_digit hM),
      map_repl_digits (pad_all_digit hS), map_repl_digits (pad_all_digit hMs0)]
    simp
  have hc1 : ':' ∉ pad 2 (ftHours t) := (not_mem_of_all_digit (pad_all_digit hH)).1
  have hc2 : ':' ∉ pad 2 (ftMin t) := (not_mem_of_all_digit (pad_all_digit hM)).1
  have hc3 : ':' ∉ pad 2 ⌊ftSecs t⌋ ++ '.' :: pad 3 (ftMs t) := by
    intro hm
    rcases List.mem_append.mp hm with hm | hm
    · exact (not_mem_of_all_digit (pad_all_digit hS)).1 hm
    · rcases List.mem_cons.mp hm with he | hm
      · exact absurd he (by decide)
      · exact (not_mem_of_all_digit (pad_all_digit hMs0)).1 hm
  have hsplit : splitSep (':', []) (pad 2 (ftHours t) ++ ':' :: pad 2 (ftMin t) ++
        ':' :: (pad 2 ⌊ftSecs t⌋ ++ '.' :: pad 3 (ftMs t))) =
      [pad 2 (ftHours t), pad 2 (ftMin t),
        pad 2 ⌊ftSecs t⌋ ++ '.' :: pad 3 (ftMs t)] := by
    have e1 : pad 2 (ftHours t) ++ ':' :: pad 2 (ftMin t) ++
          ':' :: (pad 2 ⌊ftSecs t⌋ ++ '.' :: pad 3 (ftMs t)) =
        pad 2 (ftHours t) ++ ((':' : Char) :: []) ++ (pad 2 (ftMin t) ++
          ((':' : Char) :: []) ++ (pad 2 ⌊ftSecs t⌋ ++ '.' :: pad 3 (ftMs t))) := by
      simp
    rw [e1, splitSep_boundary _ hc1, splitSep_boundary _ hc2, splitSep_single hc3]
  have hint1 : pyIntParse (pad 2 (ftHours t)) = some (ftHours t) := by
    rw [pyIntParse_digits (pad_ne_nil hH) (pad_all_digit hH), digitsVal_pad hH,
      Int.toNat_of_nonneg hH]
  have hint2 : pyIntParse (pad 2 (ftMin t)) = some (ftMin t) := by
    rw [pyIntParse_digits (pad_ne_nil hM) (pad_all_digit hM), digitsVal_pad hM,
      Int.toNat_of_nonneg hM]
  have hfloat : pyFloatParse (pad 2 ⌊ftSecs t⌋ ++ '.' :: pad 3 (ftMs t)) =
      some ((⌊ftSecs t⌋ : ℚ) + (ftMs t : ℚ) / 1000) := by
    rw [pyFloatParse_decimal (pad_ne_nil hS) (pad_all_digit hS) (pad_all_digit hMs0)]
    have hlen : (pad 3 (ftMs t)).length = 3 :=
      pad_length hMs0 (by norm_num) (by omega)
    rw [digitsVal_pad hS, digitsVal_pad hMs0, hlen]
    have c3 : ((⌊ftSecs t⌋.toNat : ℚ)) = ((⌊ftSecs t⌋ : ℤ) : ℚ) := by
      exact_mod_cast congrArg (fun z : ℤ => (z : ℚ)) (Int.toNat_of_nonneg hS)
    have c4 : (((ftMs t).toNat : ℚ)) = ((ftMs t : ℤ) : ℚ) := by
      exact_mod_cast congrArg (fun z : ℤ => (z : ℚ)) (Int.toNat_of_nonneg hMs0)
    rw [c3, c4]
    norm_num
  simp only [parse_time_string]
  rw [format_time_data t, hmap, hsplit]
  simp only [hint1, hint2, hfloat]
  rw [ft_value t]

/-! ## Structure of the serialized SRT document -/

theorem mem_pyStripL {c : Char} {l : List Char} (h : c ∈ pyStripL l) : c ∈ l := by
  unfold pyStripL at h
  rw [List.mem_reverse] at h
  have h1 := (List.dropWhile_suffix pyIsSpace).subset h
  rw [List.mem_reverse] at h1
  exact (List.dropWhile_suffix pyIsSpace).subset h1

theorem dropWhile_head?_not {p : Char → Bool} {l : List Char} {c : Char}
    (h : (l.dropWhile p).head? = some c) : p c = false := by
  induction l with
  | nil => simp at h
  | cons a t ih =>
    rw [List.dropWhile_cons] at h
    split at h
    · exact ih h
    · rename_i hpa
      simp only [List.head?_cons, Option.some.injEq] at h
      subst h
      simpa using hpa

theorem pyStripL_getLast?_not_space {l : List Char} {c : Char}
    (h : (pyStripL l).getLast? = some c) : pyIsSpace c = false := by
  unfold pyStripL at h
  rw [List.getLast?_reverse] at h
  exact dropWhile_head?_not h

theorem pyStripL_head?_not_space {l : List Char} {c : Char}
    (h : (pyStripL l).head? = some c) : pyIsSpace c = false := by
  unfold pyStripL at h
  obtain ⟨u, hu⟩ :=
    List.reverse_prefix.mpr (List.dropWhile_suffix (l := (l.dropWhile pyIsSpace).reverse) pyIsSpace)
  rw [List.reverse_reverse] at hu
  rcases hy : ((l.dropWhile pyIsSpace).reverse.dropWhile pyIsSpace).reverse with _ | ⟨b, rt⟩
  · rw [hy] at h
    simp at h
  · rw [hy] at h hu
    simp only [List.head?_cons, Option.some.injEq] at h
    subst h
    have : (l.dropWhile pyIsSpace).head? = some b := by
      rw [← hu]
      rfl
    exact dropWhile_head?_not this

/-- Printable-ASCII text: no control characters (so no newlines, tabs,
or carriage returns), all code points in `[32, 127)`. -/
def asciiPrintable (s : String) : Prop :=
  ∀ c ∈ s.data, 32 ≤ c.toNat ∧ c.toNat < 127

instance (s : String) : Decidable (asciiPrintable s) := by
  unfold asciiPrintable
  infer_instance

/-- Truncation of a time to whole milliseconds: the value recovered by
`parse_time_string` from `format_time`. -/
def msTrunc (t : ℚ) : ℚ := (⌊t * 1000⌋ : ℚ) / 1000

/-- What one SRT round trip does to a segment: times truncated to the
millisecond, text stripped. -/
def roundSeg (s : Segment) : Segment :=
  { start := msTrunc s.start, «end» := msTrunc s.«end»,
    text := String.mk (pyStripL s.text.data) }

/-- The list of block bodies of the SRT document, numbered from `i`. -/
def srtCoreList (i : ℕ) : List Segment → List (List Char)
  | [] => []
  | s :: rest => srtCore i s :: srtCoreList (i + 1) rest

/-- Chunks joined by blank lines. -/
def interNN : List (List Char) → List Char
  | [] => []
  | [c] => c
  | c :: cs => c ++ '\n' :: '\n' :: interNN cs

theorem format_time_chars {t : ℚ} (ht : 0 ≤ t) :
    ∀ c ∈ (format_time t).data, c.isDigit = true ∨ c = ':' ∨ c = ',' := by
  rw [format_time_data]
  intro c hc
  rcases List.mem_append.mp hc with h1 | h2
  · rcases List.mem_append.mp h1 with h3 | h4
    · rcases List.mem_append.mp h3 with h5 | h6
      · exact Or.inl (pad_all_digit (ftHours_nonneg ht) c h5)
      · rcases List.mem_cons.mp h6 with he | h7
        · exact Or.inr (Or.inl he)
        · exact Or.inl (pad_all_digit (ftMin_nonneg t) c h7)
    · rcases List.mem_cons.mp h4 with he | h8
      · exact Or.inr (Or.inl he)
      · exact Or.inl (pad_all_digit (floor_ftSecs_nonneg t) c h8)
  · rcases List.mem_cons.mp h2 with he | h9
    · exact Or.inr (Or.inr he)
    · exact Or.inl (pad_all_digit (ftMs_nonneg t) c h9)

theorem format_time_no_nl {t : ℚ} (ht : 0 ≤ t) : '\n' ∉ (format_time t).data := by
  intro hm
  rcases format_time_chars ht _ hm with h | h | h
  · exact absurd h (by decide)
  · exact absurd h (by decide)
  · exact absurd h (by decide)

theorem format_time_no_space {t : ℚ} (ht : 0 ≤ t) : ' ' ∉ (format_time t).data := by
  intro hm
  rcases format_time_chars ht _ hm with h | h | h
  · exact absurd h (by decide)
  · exact absurd h (by decide)
  · exact absurd h (by decide)

theorem format_time_ne_nil (t : ℚ) : (format_time t).data ≠ [] := by
  rw [format_time_data]
  simp

theorem ascii_no_nl {s : String} (h : asciiPrintable s) {c : Char}
    (hc : c ∈ pyStripL s.data) : 32 ≤ c.toNat ∧ c.toNat < 127 :=
  h c (mem_pyStripL hc)

theorem ascii_strip_no_nl {s : String} (h : asciiPrintable s) :
    '\n' ∉ pyStripL s.data := by
  intro hm
  have := ascii_no_nl h hm
  revert this
  decide

theorem natChars_no_nl {n : ℕ} : '\n' ∉ natChars n := fun hm =>
  absurd (natChars_all_digit _ hm) (by decide)

theorem srtCore_assoc (i : ℕ) (s : Segment) :
    srtCore i s = natChars i ++ ('\n' :: ((format_time s.start).data ++
      (' ' :: '-' :: '-' :: '>' :: ' ' :: ((format_time s.«end»).data ++
        ('\n' :: pyStripL s.text.data))))) := by
  unfold srtCore
  simp [List.append_assoc]

theorem srtCore_ne_nil (i : ℕ) (s : Segment) : srtCore i s ≠ [] := by
  rw [srtCore_assoc]
  simp [natChars_ne_nil]

theorem srtCore_head? (i : ℕ) (s : Segment) :
    (srtCore i s).head? = (natChars i).head? := by
  rw [srtCore_assoc]
  exact List.head?_append_of_ne_nil _ natChars_ne_nil

theorem natChars_head?_digit {n : ℕ} {c : Char}
    (h : (natChars n).head? = some c) : c.isDigit = true := by
  have hm : c ∈ natChars n := by
    rcases hl : natChars n with _ | ⟨a, t⟩
    · rw [hl] at h
      simp at h
    · rw [hl] at h
      simp only [List.head?_cons, Option.some.injEq] at h
      subst h
      exact List.mem_cons_self _ _
  exact natChars_all_digit _ hm

theorem srtCore_getLast? (i : ℕ) (s : Segment)
    (hne : pyStripL s.text.data ≠ []) :
    (srtCore i s).getLast? = (pyStripL s.text.data).getLast? := by
  unfold srtCore
  rw [List.getLast?_append_of_ne_nil _ (by simp : ('\n' :: pyStripL s.text.data) ≠ [])]
  show (['\n'] ++ pyStripL s.text.data).getLast? = _
  rw [List.getLast?_append_of_ne_nil _ hne]

theorem head?_ne_nl_of_not_mem {l : List Char} (h : '\n' ∉ l) :
    l.head? ≠ some '\n' := by
  rcases l with _ | ⟨a, t⟩
  · simp
  · simp only [List.head?_cons, ne_eq, Option.some.injEq]
    intro he
    exact h (he ▸ List.mem_cons_self a t)

theorem srtCore_nnFree (i : ℕ) (s : Segment) (hs0 : 0 ≤ s.start)
    (hs1 : 0 ≤ s.«end») (hpr : asciiPrintable s.text)
    (hne : pyStripL s.text.data ≠ []) : nnFree (srtCore i s) = true := by
  have hTnl : '\n' ∉ pyStripL s.text.data := ascii_strip_no_nl hpr
  have stepA : nnFree ('\n' :: pyStripL s.text.data) = true :=
    nnFree_cons_nl hne (head?_ne_nl_of_not_mem hTnl) (nnFree_of_not_mem hTnl)
  have stepB : nnFree ((format_time s.«end»).data ++ ('\n' :: pyStripL s.text.data)) = true :=
    nnFree_append (format_time_no_nl hs1) stepA
  have stepC : nnFree ((([' ', '-', '-', '>', ' '] : List Char)) ++
      ((format_time s.«end»).data ++ ('\n' :: pyStripL s.text.data))) = true :=
    nnFree_append (by decide) stepB
  have stepD : nnFree ((format_time s.start).data ++
      (' ' :: '-' :: '-' :: '>' :: ' ' :: ((format_time s.«end»).data ++
        ('\n' :: pyStripL s.text.data)))) = true :=
    nnFree_append (format_time_no_nl hs0) stepC
  have hSne : (format_time s.start).data ++
      (' ' :: '-' :: '-' :: '>' :: ' ' :: ((format_time s.«end»).data ++
        ('\n' :: pyStripL s.text.data))) ≠ [] := by
    simp
  have hhead : ((format_time s.start).data ++
      (' ' :: '-' :: '-' :: '>' :: ' ' :: ((format_time s.«end»).data ++
        ('\n' :: pyStripL s.text.data)))).head? ≠ some '\n' := by
    rw [List.head?_append_of_ne_nil _ (format_time_ne_nil s.start)]
    exact head?_ne_nl_of_not_mem (format_time_no_nl hs0)
  have stepE := nnFree_cons_nl hSne hhead stepD
  have stepF := nnFree_append (@natChars_no_nl i) stepE
  rw [srtCore_assoc]
  exact stepF

theorem srtCore_strip (i : ℕ) (s : Segment)
    (hne : pyStripL s.text.data ≠ []) :
    pyStripL (srtCore i s) = srtCore i s := by
  apply pyStripL_id
  · intro c hc
    rw [srtCore_head?] at hc
    exact (isDigit_ne (natChars_head?_digit hc)).2.2.2.2.2.2.2
  · intro c hc
    rw [srtCore_getLast? i s hne] at hc
    exact pyStripL_getLast?_not_space hc

theorem timeline_no_nl {s : Segment} (hs0 : 0 ≤ s.start) (hs1 : 0 ≤ s.«end») :
    '\n' ∉ (format_time s.start).data ++
      ' ' :: '-' :: '-' :: '>' :: ' ' :: (format_time s.«end»).data := by
  intro hm
  rcases List.mem_append.mp hm with hm | hm
  · exact format_time_no_nl hs0 hm
  · rcases List.mem_cons.mp hm with he | hm
    · exact absurd he (by decide)
    · rcases List.mem_cons.mp hm with he | hm
      · exact absurd he (by decide)
      · rcases List.mem_cons.mp hm with he | hm
        · exact absurd he (by decide)
        · rcases List.mem_cons.mp hm with he | hm
          · exact absurd he (by decide)
          · rcases List.mem_cons.mp hm with he | hm
            · exact absurd he (by decide)
            · exact format_time_no_nl hs1 hm

theorem timeline_contains (s : Segment) :
    containsSeq [' ', '-', '-', '>', ' '] ((format_time s.start).data ++
      ' ' :: '-' :: '-' :: '>' :: ' ' :: (format_time s.«end»).data) = true := by
  have e : (format_time s.start).data ++
      ' ' :: '-' :: '-' :: '>' :: ' ' :: (format_time s.«end»).data =
      (format_time s.start).data ++ ([' ', '-', '-', '>', ' '] : List Char) ++
        (format_time s.«end»).data := by
    simp
  rw [e]
  exact containsSeq_append_pat _ _ _

theorem timeline_split {s : Segment} (hs0 : 0 ≤ s.start) (hs1 : 0 ≤ s.«end») :
    splitSep (' ', ['-', '-', '>', ' ']) ((format_time s.start).data ++
      ' ' :: '-' :: '-' :: '>' :: ' ' :: (format_time s.«end»).data) =
      [(format_time s.start).data, (format_time s.«end»).data] := by
  have e : (format_time s.start).data ++
      ' ' :: '-' :: '-' :: '>' :: ' ' :: (format_time s.«end»).data =
      (format_time s.start).data ++ ((' ' : Char) :: ['-', '-', '>', ' ']) ++
        (format_time s.«end»).data := by
    simp
  rw [e, splitSep_boundary _ (format_time_no_space hs0),
    splitSep_single (format_time_no_space hs1)]

theorem srtCore_lines {i : ℕ} {s : Segment} (hs0 : 0 ≤ s.start)
    (hs1 : 0 ≤ s.«end») (hpr : asciiPrintable s.text) :
    splitSep ('\n', []) (srtCore i s) =
      [natChars i,
       (format_time s.start).data ++
         ' ' :: '-' :: '-' :: '>' :: ' ' :: (format_time s.«end»).data,
       pyStripL s.text.data] := by
  have e : srtCore i s = natChars i ++ (('\n' : Char) :: []) ++
      (((format_time s.start).data ++
        ' ' :: '-' :: '-' :: '>' :: ' ' :: (format_time s.«end»).data) ++
        (('\n' : Char) :: []) ++ pyStripL s.text.data) := by
    unfold srtCore
    simp
  rw [e, splitSep_boundary _ natChars_no_nl,
    splitSep_boundary _ (timeline_no_nl hs0 hs1),
    splitSep_single (ascii_strip_no_nl hpr)]

theorem parseBlocks_core_cons {i : ℕ} {s : Segment} (rest : List (List Char))
    (hs0 : 0 ≤ s.start) (hs1 : 0 ≤ s.«end») (hpr : asciiPrintable s.text)
    (hne : pyStripL s.text.data ≠ []) :
    parseBlocks (srtCore i s :: rest) =
      (parseBlocks rest).map (fun segs => roundSeg s :: segs) := by
  have hmk1 : String.mk (format_time s.start).data = format_time s.start := rfl
  have hmk2 : String.mk (format_time s.«end»).data = format_time s.«end» := rfl
  simp only [parseBlocks, srtCore_strip i s hne, srtCore_lines hs0 hs1 hpr,
    timeline_contains s, if_true, timeline_split hs0 hs1, hmk1, hmk2,
    parse_format hs0, parse_format hs1]
  rcases parseBlocks rest with _ | segs <;> rfl

/-- The conditions under which one segment serializes into a block the
parser recovers: non-negative times, printable-ASCII text, text
non-empty once stripped. -/
def segOk (s : Segment) : Prop :=
  0 ≤ s.start ∧ 0 ≤ s.«end» ∧ asciiPrintable s.text ∧ pyStripL s.text.data ≠ []

instance (s : Segment) : Decidable (segOk s) := by
  unfold segOk
  infer_instance

theorem parseBlocks_coreList (i : ℕ) (segs : List Segment)
    (h : ∀ s ∈ segs, segOk s) :
    parseBlocks (srtCoreList i segs) = some (segs.map roundSeg) := by
  induction segs generalizing i with
  | nil => rfl
  | cons s rest ih =>
    obtain ⟨hs0, hs1, hpr, hne⟩ := h s (List.mem_cons_self s rest)
    rw [srtCoreList, parseBlocks_core_cons _ hs0 hs1 hpr hne,
      ih (i + 1) (fun x hx => h x (List.mem_cons_of_mem _ hx))]
    rfl

theorem srtBlocks_eq_interNN (i : ℕ) (segs : List Segment) (hne : segs ≠ []) :
    srtBlocks i segs = interNN (srtCoreList i segs) ++ ['\n', '\n'] := by
  induction segs generalizing i with
  | nil => exact absurd rfl hne
  | cons s rest ih =>
    rcases rest with _ | ⟨s2, rest2⟩
    · rfl
    · rw [srtBlocks, ih (i + 1) (by simp), srtCoreList]
      show _ = interNN (srtCore i s :: srtCoreList (i + 1) (s2 :: rest2)) ++ _
      rw [srtCoreList]
      show _ = (srtCore i s ++ '\n' :: '\n' ::
        interNN (srtCore (i + 1) s2 :: srtCoreList (i + 2) rest2)) ++ _
      rw [← srtCoreList]
      simp

theorem interNN_cons_cons (x d : List Char) (ds : List (List Char)) :
    interNN (x :: d :: ds) = x ++ '\n' :: '\n' :: interNN (d :: ds) := rfl

theorem interNN_ne_nil (l : List (List Char)) (hl : l ≠ [])
    (h : ∀ c ∈ l, c ≠ []) : interNN l ≠ [] := by
  rcases l with _ | ⟨c, cs⟩
  · exact absurd rfl hl
  · rcases cs with _ | ⟨d, ds⟩
    · exact h c (List.mem_cons_self _ _)
    · rw [interNN_cons_cons]
      simp

theorem interNN_head? (c : List Char) (cs : List (List Char)) (hc : c ≠ []) :
    (interNN (c :: cs)).head? = c.head? := by
  rcases cs with _ | ⟨d, ds⟩
  · rfl
  · rw [interNN_cons_cons]
    exact List.head?_append_of_ne_nil _ hc

theorem interNN_getLast?_mem (l : List (List Char)) (h : ∀ x ∈ l, x ≠ [])
    {c : Char} (hc : (interNN l).getLast? = some c) :
    ∃ chunk ∈ l, chunk.getLast? = some c := by
  induction l with
  | nil => simp [interNN] at hc
  | cons x cs ih =>
    rcases cs with _ | ⟨d, ds⟩
    · exact ⟨x, List.mem_cons_self _ _, hc⟩
    · rw [interNN_cons_cons] at hc
      have hn : interNN (d :: ds) ≠ [] :=
        interNN_ne_nil _ (by simp) (fun y hy => h y (List.mem_cons_of_mem _ hy))
      rw [List.getLast?_append_of_ne_nil _
        (by simp : ('\n' :: '\n' :: interNN (d :: ds)) ≠ [])] at hc
      have hc2 : ((['\n', '\n'] : List Char) ++ interNN (d :: ds)).getLast? = some c := hc
      rw [List.getLast?_append_of_ne_nil _ hn] at hc2
      obtain ⟨chunk, hm, he⟩ := ih (fun y hy => h y (List.mem_cons_of_mem _ hy)) hc2
      exact ⟨chunk, List.mem_cons_of_mem _ hm, he⟩

theorem splitSep_interNN (l : List (List Char)) (hl : l ≠ [])
    (h : ∀ c ∈ l, nnFree c = true) :
    splitSep ('\n', ['\n']) (interNN l) = l := by
  induction l with
  | nil => exact absurd rfl hl
  | cons c cs ih =>
    rcases cs with _ | ⟨d, ds⟩
    · exact splitSep_nn_single (h c (List.mem_cons_self _ _))
    · rw [interNN_cons_cons,
        splitSep_nn_boundary _ (h c (List.mem_cons_self _ _)),
        ih (by simp) (fun x hx => h x (List.mem_cons_of_mem _ hx))]

theorem mem_srtCoreList {i : ℕ} {segs : List Segment} {c : List Char}
    (hc : c ∈ srtCoreList i segs) : ∃ j s, s ∈ segs ∧ c = srtCore j s := by
  induction segs generalizing i with
  | nil => simp [srtCoreList] at hc
  | cons s rest ih =>
    rw [srtCoreList] at hc
    rcases List.mem_cons.mp hc with rfl | hc
    · exact ⟨i, s, List.mem_cons_self _ _, rfl⟩
    · obtain ⟨j, s2, hm, he⟩ := ih hc
      exact ⟨j, s2, List.mem_cons_of_mem _ hm, he⟩

theorem strip_srtBlocks (segs : List Segment) (hne : segs ≠ [])
    (h : ∀ s ∈ segs, segOk s) :
    pyStripL (srtBlocks 1 segs) = interNN (srtCoreList 1 segs) := by
  have hcore_ne : ∀ c ∈ srtCoreList 1 segs, c ≠ [] := by
    have : ∀ (i : ℕ) (ss : List Segment), (∀ s ∈ ss, segOk s) →
        ∀ c ∈ srtCoreList i ss, c ≠ [] := by
      intro i ss
      induction ss generalizing i with
      | nil => intro _ c hc; simp [srtCoreList] at hc
      | cons s rest ih =>
        intro hok c hc
        rw [srtCoreList] at hc
        rcases List.mem_cons.mp hc with rfl | hc
        · exact srtCore_ne_nil _ _
        · exact ih (i + 1) (fun x hx => hok x (List.mem_cons_of_mem _ hx)) c hc
    exact this 1 segs h
  have hlist_ne : srtCoreList 1 segs ≠ [] := by
    rcases segs with _ | ⟨s, rest⟩
    · exact absurd rfl hne
    · simp [srtCoreList]
  rw [srtBlocks_eq_interNN 1 segs hne]
  rcases hI : interNN (srtCoreList 1 segs) with _ | ⟨a, t⟩
  · exact absurd hI (interNN_ne_nil _ hlist_ne hcore_ne)
  · refine pyStripL_append_nn a t rfl ?_ ?_
    · have hh : (interNN (srtCoreList 1 segs)).head? = some a := by
        rw [hI]
        rfl
      rcases hcl : srtCoreList 1 segs with _ | ⟨c0, cs0⟩
      · exact absurd hcl hlist_ne
      · rw [hcl] at hh
        rw [interNN_head? c0 cs0 (hcore_ne c0 (hcl ▸ List.mem_cons_self _ _))] at hh
        obtain ⟨j, s, hsm, rfl⟩ := mem_srtCoreList (hcl ▸ List.mem_cons_self c0 cs0)
        rw [srtCore_head?] at hh
        exact (isDigit_ne (natChars_head?_digit hh)).2.2.2.2.2.2.2
    · intro c hc
      have hgl : (interNN (srtCoreList 1 segs)).getLast? = some c := by
        rw [hI]
        exact hc
      obtain ⟨chunk, hm, he⟩ := interNN_getLast?_mem _ hcore_ne hgl
      obtain ⟨j, s, hsm, rfl⟩ := mem_srtCoreList hm
      obtain ⟨-, -, -, hne2⟩ := h s hsm
      rw [srtCore_getLast? j s hne2] at he
      exact pyStripL_getLast?_not_space he

theorem srtCoreList_nnFree {segs : List Segment} (h : ∀ s ∈ segs, segOk s) :
    ∀ c ∈ srtCoreList 1 segs, nnFree c = true := by
  intro c hc
  obtain ⟨j, s, hsm, rfl⟩ := mem_srtCoreList hc
  obtain ⟨hs0, hs1, hpr, hne⟩ := h s hsm
  exact srtCore_nnFree j s hs0 hs1 hpr hne

theorem srtCoreList_ne_nil {segs : List Segment} (hne : segs ≠ []) :
    srtCoreList 1 segs ≠ [] := by
  rcases segs with _ | ⟨s, rest⟩
  · exact absurd rfl hne
  · simp [srtCoreList]

/-- The SRT serialize/parse round trip on the content level: parsing the
exact text `create_srt_file` writes recovers every segment, with times
truncated to whole milliseconds and text stripped. -/
theorem parse_create (segs : List Segment) (h : ∀ s ∈ segs, segOk s) :
    parse_srt_file (create_srt_content segs) = some (segs.map roundSeg) := by
  rcases hsegs : segs with _ | ⟨s, rest⟩
  · decide
  · rw [← hsegs]
    have hne : segs ≠ [] := by rw [hsegs]; simp
    unfold parse_srt_file create_srt_content
    have hdata : (String.mk (srtBlocks 1 segs)).data = srtBlocks 1 segs := rfl
    rw [hdata, strip_srtBlocks segs hne h,
      splitSep_interNN _ (srtCoreList_ne_nil hne) (srtCoreList_nnFree h),
      parseBlocks_coreList 1 segs h]

theorem msTrunc_close (t : ℚ) : |msTrunc t - t| < 1 / 1000 := by
  have h1 := Int.floor_le (t * 1000)
  have h2 := Int.lt_floor_add_one (t * 1000)
  rw [abs_lt]
  unfold msTrunc
  constructor <;> nlinarith

theorem srtCoreList_getD (i k : ℕ) (segs : List Segment) (h : k < segs.length) :
    (srtCoreList i segs).getD k [] =
      srtCore (i + k) (segs.getD k ⟨0, 0, ""⟩) := by
  induction segs generalizing i k with
  | nil => simp at h
  | cons s rest ih =>
    rcases k with _ | k
    · simp [srtCoreList]
    · have hk : k < rest.length := by
        simp only [List.length_cons] at h
        omega
      show (srtCoreList (i + 1) rest).getD k [] = _
      rw [ih (i + 1) k hk]
      have : i + 1 + k = i + (k + 1) := by omega
      rw [this]
      rfl

theorem srtCore_index_prefix (j : ℕ) (s : Segment) :
    (natChars j ++ ['\n']).isPrefixOf (srtCore j s) = true := by
  refine List.isPrefixOf_iff_prefix.mpr ?_
  refine ⟨(format_time s.start).data ++
    ' ' :: '-' :: '-' :: '>' :: ' ' :: ((format_time s.«end»).data ++
      ('\n' :: pyStripL s.text.data)), ?_⟩
  rw [srtCore_assoc]
  simp

theorem pyStrip_ne_empty_iff (s : String) :
    pyStrip s ≠ "" ↔ pyStripL s.data ≠ [] := by
  unfold pyStrip
  constructor
  · intro h he
    exact h (by rw [he])
  · intro h he
    have : (String.mk (pyStripL s.data)).data = ("" : String).data := by rw [he]
    exact h this

theorem format_time_zero_data : (format_time 0).data = "00:00:00,000".data := by
  rw [format_time_data]
  have e1 : ftHours 0 = 0 := by norm_num [ftHours]
  have e2 : ftMin 0 = 0 := by norm_num [ftMin, ftRem, ftHours]
  have e3 : (⌊ftSecs 0⌋ : ℤ) = 0 := by norm_num [ftSecs, ftMin, ftRem, ftHours]
  have e4 : ftMs 0 = 0 := by norm_num [ftMs, ftSecs, ftMin, ftRem, ftHours]
  rw [e1, e2, e3, e4]
  decide

theorem format_time_one_data : (format_time 1).data = "00:00:01,000".data := by
  rw [format_time_data]
  have e1 : ftHours 1 = 0 := by norm_num [ftHours]
  have e2 : ftMin 1 = 0 := by norm_num [ftMin, ftRem, ftHours]
  have e3 : (⌊ftSecs 1⌋ : ℤ) = 1 := by norm_num [ftSecs, ftMin, ftRem, ftHours]
  have e4 : ftMs 1 = 0 := by norm_num [ftMs, ftSecs, ftMin, ftRem, ftHours]
  rw [e1, e2, e3, e4]
  decide

/-! ## Claim C1: SRT serialize/parse round trip -/

/-- C1 counterexample: the segment `{start 0, end 1, text ""}` has
`start < end` and (vacuously) printable text, yet the round trip
returns an empty list — the block is dropped because the empty stripped
text leaves it with only two lines, so the length is not preserved and
the claim as stated fails. -/
theorem c1_counterexample :
    ((0 : ℚ) < 1 ∧ asciiPrintable "") ∧
      parse_srt_file
        (create_srt_content [{ start := 0, «end» := 1, text := "" }]) =
        some [] ∧ ([{ start := 0, «end» := 1, text := "" }] : List Segment).length = 1 := by
  refine ⟨⟨by decide, by decide⟩, ?_, rfl⟩
  have hd : create_srt_content [{ start := 0, «end» := 1, text := "" }] =
      "1\n00:00:00,000 --> 00:00:01,000\n\n\n" := by
    show String.mk _ = String.mk _
    congr 1
    show srtCore 1 { start := 0, «end» := 1, text := "" } ++ '\n' :: '\n' :: [] = _
    unfold srtCore
    rw [format_time_zero_data, format_time_one_data]
    decide
  rw [hd]
  decide

/-- C1 (amended): for segments with `0 ≤ start < end` and printable
ASCII text whose `strip()` is non-empty, parsing the serialized SRT
yields one segment per input segment in order, with `start`/`end`
within 1ms below the originals and text equal to the ORIGINAL TEXT
STRIPPED (the serializer strips it); block index lines are renumbered
1, 2, … positionally. -/
theorem c1_roundtrip (segs : List Segment)
    (h : ∀ s ∈ segs, 0 ≤ s.start ∧ s.start < s.«end» ∧ asciiPrintable s.text ∧
      pyStrip s.text ≠ "") :
    parse_srt_file (create_srt_content segs) = some (segs.map roundSeg) ∧
    (segs.map roundSeg).length = segs.length ∧
    (∀ s ∈ segs, |(roundSeg s).start - s.start| < 1 / 1000 ∧
      |(roundSeg s).«end» - s.«end»| < 1 / 1000 ∧
      (roundSeg s).text = pyStrip s.text) ∧
    ∀ k, k < segs.length →
      (natChars (k + 1) ++ ['\n']).isPrefixOf
        ((splitSep ('\n', ['\n'])
          (pyStripL (create_srt_content segs).data)).getD k []) = true := by
  have hok : ∀ s ∈ segs, segOk s := by
    intro s hs
    obtain ⟨a, b, c, d⟩ := h s hs
    exact ⟨a, le_of_lt (lt_of_le_of_lt a b), c, (pyStrip_ne_empty_iff _).mp d⟩
  refine ⟨parse_create segs hok, by simp, ?_, ?_⟩
  · intro s hs
    exact ⟨msTrunc_close s.start, msTrunc_close s.«end», rfl⟩
  · intro k hk
    have hne : segs ≠ [] := by
      intro he
      rw [he] at hk
      simp at hk
    have hblocks : splitSep ('\n', ['\n'])
        (pyStripL (create_srt_content segs).data) = srtCoreList 1 segs := by
      show splitSep ('\n', ['\n']) (pyStripL (srtBlocks 1 segs)) = _
      rw [strip_srtBlocks segs hne hok,
        splitSep_interNN _ (srtCoreList_ne_nil hne) (srtCoreList_nnFree hok)]
    rw [hblocks, srtCoreList_getD 1 k segs hk]
    have e : 1 + k = k + 1 := by omega
    rw [e]
    exact srtCore_index_prefix _ _

/-- C1 witness: the amended round trip instantiated on spec scenario A
shaped data (integer times so every hypothesis is decidable). -/
theorem c1_witness :
    (∀ s ∈ ([{ start := 0, «end» := 1, text := "Hello" },
      { start := 1, «end» := 3, text := "World" }] : List Segment),
      0 ≤ s.start ∧ s.start < s.«end» ∧ asciiPrintable s.text ∧
        pyStrip s.text ≠ "") ∧
    (parse_srt_file (create_srt_content
        [{ start := 0, «end» := 1, text := "Hello" },
         { start := 1, «end» := 3, text := "World" }]) =
      some ([{ start := 0, «end» := 1, text := "Hello" },
         { start := 1, «end» := 3, text := "World" }].map roundSeg) ∧
    ([{ start := 0, «end» := 1, text := "Hello" },
      { start := 1, «end» := 3, text := "World" }].map roundSeg).length =
      ([{ start := 0, «end» := 1, text := "Hello" },
        { start := 1, «end» := 3, text := "World" }] : List Segment).length ∧
    (∀ s ∈ ([{ start := 0, «end» := 1, text := "Hello" },
        { start := 1, «end» := 3, text := "World" }] : List Segment),
      |(roundSeg s).start - s.start| < 1 / 1000 ∧
      |(roundSeg s).«end» - s.«end»| < 1 / 1000 ∧
      (roundSeg s).text = pyStrip s.text) ∧
    ∀ k, k < ([{ start := 0, «end» := 1, text := "Hello" },
        { start := 1, «end» := 3, text := "World" }] : List Segment).length →
      (natChars (k + 1) ++ ['\n']).isPrefixOf
        ((splitSep ('\n', ['\n'])
          (pyStripL (create_srt_content
            [{ start := 0, «end» := 1, text := "Hello" },
             { start := 1, «end» := 3, text := "World" }]).data)).getD k []) = true) :=
  ⟨by decide, c1_roundtrip _ (by decide)⟩

/-! ## Claim C2: a timecode decode failure aborts the whole parse -/

theorem pyStripL_append_suffix {l : List Char} (a : Char) (t : List Char)
    (hl : l = a :: t) (h1 : pyIsSpace a = false)
    (h2 : ∀ c, l.getLast? = some c → pyIsSpace c = false) (suffix : List Char) :
    pyStripL (l ++ suffix) = l ++ (suffix.reverse.dropWhile pyIsSpace).reverse := by
  unfold pyStripL
  subst hl
  rw [List.cons_append, List.dropWhile_cons, h1]
  simp only [Bool.false_eq_true, if_false]
  rw [← List.cons_append, List.reverse_append, List.dropWhile_append]
  rcases hr : (a :: t).reverse with _ | ⟨b, rt⟩
  · exact absurd hr (by simp)
  · have hb : pyIsSpace b = false := by
      refine h2 b ?_
      rw [List.getLast?_eq_head?_reverse, hr]
      rfl
    split
    · rename_i hemp
      rw [List.dropWhile_cons, hb]
      simp only [Bool.false_eq_true, if_false]
      rw [← hr, List.reverse_reverse]
      have : (suffix.reverse.dropWhile pyIsSpace) = [] := by
        simpa using hemp
      rw [this]
      simp
    · rw [List.reverse_append, ← hr, List.reverse_reverse]

theorem rstrip_nn_cases (tail : List Char) :
    ((('\n' :: '\n' :: tail : List Char)).reverse.dropWhile pyIsSpace).reverse = [] ∨
    ∃ T, ((('\n' :: '\n' :: tail : List Char)).reverse.dropWhile pyIsSpace).reverse =
      '\n' :: '\n' :: T := by
  have e : (('\n' :: '\n' :: tail : List Char)).reverse = tail.reverse ++ ['\n', '\n'] := by
    simp
  rw [e, List.dropWhile_append]
  split
  · left
    decide
  · right
    exact ⟨(tail.reverse.dropWhile pyIsSpace).reverse, by simp⟩

theorem gen_timeline_no_nl {timeA timeB : List Char} (hA : '\n' ∉ timeA)
    (hB : '\n' ∉ timeB) :
    '\n' ∉ timeA ++ ' ' :: '-' :: '-' :: '>' :: ' ' :: timeB := by
  intro hm
  rcases List.mem_append.mp hm with hm | hm
  · exact hA hm
  · rcases List.mem_cons.mp hm with he | hm
    · exact absurd he (by decide)
    · rcases List.mem_cons.mp hm with he | hm
      · exact absurd he (by decide)
      · rcases List.mem_cons.mp hm with he | hm
        · exact absurd he (by decide)
        · rcases List.mem_cons.mp hm with he | hm
          · exact absurd he (by decide)
          · rcases List.mem_cons.mp hm with he | hm
            · exact absurd he (by decide)
            · exact hB hm

theorem gen_lines {idx timeA timeB text : List Char} (hidx_nl : '\n' ∉ idx)
    (hA_nl : '\n' ∉ timeA) (hB_nl : '\n' ∉ timeB) (htext_nl : '\n' ∉ text) :
    splitSep ('\n', []) (idx ++ '\n' :: timeA ++
      ' ' :: '-' :: '-' :: '>' :: ' ' :: timeB ++ '\n' :: text) =
      [idx, timeA ++ ' ' :: '-' :: '-' :: '>' :: ' ' :: timeB, text] := by
  have e : idx ++ '\n' :: timeA ++
      ' ' :: '-' :: '-' :: '>' :: ' ' :: timeB ++ '\n' :: text =
      idx ++ (('\n' : Char) :: []) ++
        ((timeA ++ ' ' :: '-' :: '-' :: '>' :: ' ' :: timeB) ++
          (('\n' : Char) :: []) ++ text) := by
    simp
  rw [e, splitSep_boundary _ hidx_nl,
    splitSep_boundary _ (gen_timeline_no_nl hA_nl hB_nl),
    splitSep_single htext_nl]

theorem gen_core_nnFree {idx timeA timeB text : List Char}
    (hidx_nl : '\n' ∉ idx) (hA_nl : '\n' ∉ timeA) (hB_nl : '\n' ∉ timeB)
    (htext_ne : text ≠ []) (htext_nl : '\n' ∉ text) :
    nnFree (idx ++ '\n' :: timeA ++
      ' ' :: '-' :: '-' :: '>' :: ' ' :: timeB ++ '\n' :: text) = true := by
  have stepA : nnFree ('\n' :: text) = true :=
    nnFree_cons_nl htext_ne (head?_ne_nl_of_not_mem htext_nl)
      (nnFree_of_not_mem htext_nl)
  have stepB : nnFree (timeB ++ '\n' :: text) = true := nnFree_append hB_nl stepA
  have stepC : nnFree (([' ', '-', '-', '>', ' '] : List Char) ++
      (timeB ++ '\n' :: text)) = true := nnFree_append (by decide) stepB
  have stepD : nnFree (timeA ++ (([' ', '-', '-', '>', ' '] : List Char) ++
      (timeB ++ '\n' :: text))) = true := nnFree_append hA_nl stepC
  have hne2 : timeA ++ (([' ', '-', '-', '>', ' '] : List Char) ++
      (timeB ++ '\n' :: text)) ≠ [] := by simp
  have hhd : (timeA ++ (([' ', '-', '-', '>', ' '] : List Char) ++
      (timeB ++ '\n' :: text))).head? ≠ some '\n' := by
    rcases timeA with _ | ⟨c, r⟩
    · simp
    · rw [List.head?_append_of_ne_nil _ (by simp)]
      exact head?_ne_nl_of_not_mem hA_nl
  have stepE := nnFree_cons_nl hne2 hhd stepD
  have stepF := nnFree_append hidx_nl stepE
  have e : idx ++ '\n' :: timeA ++
      ' ' :: '-' :: '-' :: '>' :: ' ' :: timeB ++ '\n' :: text =
      idx ++ ('\n' :: (timeA ++ (([' ', '-', '-', '>', ' '] : List Char) ++
        (timeB ++ '\n' :: text)))) := by
    simp
  rw [e]
  exact stepF

theorem pyStripL_append_suffix2 {l : List Char} (hne : l ≠ [])
    (h1 : ∀ c, l.head? = some c → pyIsSpace c = false)
    (h2 : ∀ c, l.getLast? = some c → pyIsSpace c = false) (suffix : List Char) :
    pyStripL (l ++ suffix) = l ++ (suffix.reverse.dropWhile pyIsSpace).reverse := by
  rcases l with _ | ⟨a, t⟩
  · exact absurd rfl hne
  · exact pyStripL_append_suffix a t rfl (h1 a rfl) h2 suffix

theorem core_head_not_space {idx timeA timeB text : List Char} (hidx_ne : idx ≠ [])
    (hidx_head : ∀ c, idx.head? = some c → pyIsSpace c = false) :
    ∀ c, (idx ++ '\n' :: timeA ++
      ' ' :: '-' :: '-' :: '>' :: ' ' :: timeB ++ '\n' :: text).head? = some c →
      pyIsSpace c = false := by
  intro c hc
  rw [List.head?_append_of_ne_nil _ (by simp [hidx_ne]),
    List.head?_append_of_ne_nil _ (by simp [hidx_ne]),
    List.head?_append_of_ne_nil _ hidx_ne] at hc
  exact hidx_head c hc

theorem core_last_not_space {idx timeA timeB text : List Char} (htext_ne : text ≠ [])
    (hlast : ∀ c, text.getLast? = some c → pyIsSpace c = false) :
    ∀ c, (idx ++ '\n' :: timeA ++
      ' ' :: '-' :: '-' :: '>' :: ' ' :: timeB ++ '\n' :: text).getLast? = some c →
      pyIsSpace c = false := by
  intro c hc
  rw [List.getLast?_append_of_ne_nil _ (by simp : ('\n' :: text) ≠ [])] at hc
  have hc2 : ((['\n'] : List Char) ++ text).getLast? = some c := hc
  rw [List.getLast?_append_of_ne_nil _ htext_ne] at hc2
  exact hlast c hc2

theorem parseBlocks_bad_cons {idx timeA timeB text : List Char}
    (rest : List (List Char))
    (hidx_ne : idx ≠ []) (hidx_nl : '\n' ∉ idx)
    (hidx_head : ∀ c, idx.head? = some c → pyIsSpace c = false)
    (hA_sp : ' ' ∉ timeA) (hA_nl : '\n' ∉ timeA)
    (hB_sp : ' ' ∉ timeB) (hB_nl : '\n' ∉ timeB)
    (hfail : parse_time_string (String.mk timeA) = none)
    (htext_ne : text ≠ []) (htext_nl : '\n' ∉ text)
    (hlast : ∀ c, text.getLast? = some c → pyIsSpace c = false) :
    parseBlocks ((idx ++ '\n' :: timeA ++
      ' ' :: '-' :: '-' :: '>' :: ' ' :: timeB ++ '\n' :: text) :: rest) = none := by
  have hstrip : pyStripL (idx ++ '\n' :: timeA ++
      ' ' :: '-' :: '-' :: '>' :: ' ' :: timeB ++ '\n' :: text) =
      idx ++ '\n' :: timeA ++ ' ' :: '-' :: '-' :: '>' :: ' ' :: timeB ++ '\n' :: text :=
    pyStripL_id (core_head_not_space hidx_ne hidx_head)
      (core_last_not_space htext_ne hlast)
  have hcontains : containsSeq [' ', '-', '-', '>', ' ']
      (timeA ++ ' ' :: '-' :: '-' :: '>' :: ' ' :: timeB) = true := by
    have e : timeA ++ ' ' :: '-' :: '-' :: '>' :: ' ' :: timeB =
        timeA ++ ([' ', '-', '-', '>', ' '] : List Char) ++ timeB := by simp
    rw [e]
    exact containsSeq_append_pat _ _ _
  have hsplit2 : splitSep (' ', ['-', '-', '>', ' '])
      (timeA ++ ' ' :: '-' :: '-' :: '>' :: ' ' :: timeB) = [timeA, timeB] := by
    have e : timeA ++ ' ' :: '-' :: '-' :: '>' :: ' ' :: timeB =
        timeA ++ ((' ' : Char) :: ['-', '-', '>', ' ']) ++ timeB := by simp
    rw [e, splitSep_boundary _ hA_sp, splitSep_single hB_sp]
  simp only [parseBlocks, hstrip, gen_lines hidx_nl hA_nl hB_nl htext_nl,
    hcontains, if_true, hsplit2, hfail]

/-- C2 counterexample: the SRT text below has one block whose time line
contains `' --> '` but whose fields `aa`/`bb` fail to decode, followed
by a fully well-formed block. The claim says the bad block is skipped
and the well-formed block is returned; in fact the whole parse raises
(`none`), losing the well-formed block — which, alone, does parse. -/
theorem c2_counterexample :
    parse_srt_file
      "1\naa --> bb\nhello\n\n2\n00:00:00,000 --> 00:00:01,000\nworld" = none ∧
    (parse_srt_file "2\n00:00:00,000 --> 00:00:01,000\nworld").isSome = true :=
  ⟨by decide, by decide⟩

/-- C2 (amended): when a block's time line contains `' --> '` but its
first timecode field fails to decode, `parse_srt_file` raises (returns
`none`) and the entire parse is lost, regardless of what well-formed
blocks follow. -/
theorem c2_decode_abort {idx timeA timeB text : List Char} (tail : List Char)
    (hidx_ne : idx ≠ []) (hidx_nl : '\n' ∉ idx)
    (hidx_head : ∀ c, idx.head? = some c → pyIsSpace c = false)
    (hA_sp : ' ' ∉ timeA) (hA_nl : '\n' ∉ timeA)
    (hB_sp : ' ' ∉ timeB) (hB_nl : '\n' ∉ timeB)
    (hfail : parse_time_string (String.mk timeA) = none)
    (htext_ne : text ≠ []) (htext_nl : '\n' ∉ text)
    (hlast : ∀ c, text.getLast? = some c → pyIsSpace c = false) :
    parse_srt_file (String.mk (idx ++ '\n' :: timeA ++
      ' ' :: '-' :: '-' :: '>' :: ' ' :: timeB ++ '\n' :: text ++
      '\n' :: '\n' :: tail)) = none := by
  show parseBlocks (splitSep ('\n', ['\n']) (pyStripL _)) = none
  have hdata : (String.mk (idx ++ '\n' :: timeA ++
      ' ' :: '-' :: '-' :: '>' :: ' ' :: timeB ++ '\n' :: text ++
      '\n' :: '\n' :: tail)).data =
      (idx ++ '\n' :: timeA ++
        ' ' :: '-' :: '-' :: '>' :: ' ' :: timeB ++ '\n' :: text) ++
        ('\n' :: '\n' :: tail) := rfl
  rw [hdata, pyStripL_append_suffix2 (by simp [hidx_ne])
    (core_head_not_space hidx_ne hidx_head)
    (core_last_not_space htext_ne hlast)]
  have hnn := gen_core_nnFree hidx_nl hA_nl hB_nl htext_ne htext_nl
  rcases rstrip_nn_cases tail with hR | ⟨T, hR⟩
  · rw [hR, List.append_nil, splitSep_nn_single hnn]
    exact parseBlocks_bad_cons [] hidx_ne hidx_nl hidx_head hA_sp hA_nl hB_sp
      hB_nl hfail htext_ne htext_nl hlast
  · rw [hR, splitSep_nn_boundary _ hnn]
    exact parseBlocks_bad_cons _ hidx_ne hidx_nl hidx_head hA_sp hA_nl hB_sp
      hB_nl hfail htext_ne htext_nl hlast

/-- C2 witness: the amended abort theorem applied to the
counterexample-shaped input. -/
theorem c2_witness :
    (("1".data : List Char) ≠ [] ∧ '\n' ∉ ("1".data : List Char) ∧
      ' ' ∉ ("aa".data : List Char) ∧ ' ' ∉ ("bb".data : List Char) ∧
      parse_time_string (String.mk "aa".data) = none ∧
      ("hello".data : List Char) ≠ []) ∧
    parse_srt_file (String.mk ("1".data ++ '\n' :: "aa".data ++
      ' ' :: '-' :: '-' :: '>' :: ' ' :: "bb".data ++ '\n' :: "hello".data ++
      '\n' :: '\n' :: "2\n00:00:00,000 --> 00:00:01,000\nworld".data)) = none :=
  ⟨⟨by decide, by decide, by decide, by decide, by decide, by decide⟩,
   c2_decode_abort "2\n00:00:00,000 --> 00:00:01,000\nworld".data
     (by decide) (by decide) (by decide) (by decide) (by decide) (by decide)
     (by decide) (by decide) (by decide) (by decide) (by decide)⟩

/-! ## Claims C4 and C7: the time-code codec -/

/-- C4 (confirmed): for every `t ≥ 0`, decoding the encoded timecode
recovers `t` truncated (not rounded) to whole milliseconds — exactly
`⌊1000t⌋/1000`, within 1ms below `t` — and the encoded string is the
zero-padded `HH:MM:SS,mmm` with the millisecond field the truncation
`⌊fract(seconds)·1000⌋`. -/
theorem c4_codec_roundtrip (t : ℚ) (ht : 0 ≤ t) :
    parse_time_string (format_time t) = some (msTrunc t) ∧
    0 ≤ t - msTrunc t ∧ t - msTrunc t < 1 / 1000 ∧
    (format_time t).data =
      pad 2 (ftHours t) ++ ':' :: pad 2 (ftMin t) ++ ':' :: pad 2 ⌊ftSecs t⌋ ++
        ',' :: pad 3 (ftMs t) := by
  refine ⟨parse_format ht, ?_, ?_, format_time_data t⟩
  · have h1 := Int.floor_le (t * 1000)
    unfold msTrunc
    nlinarith
  · have h2 := Int.lt_floor_add_one (t * 1000)
    unfold msTrunc
    nlinarith

/-- C4 witness: the round trip at `t = 1`. -/
theorem c4_witness :
    (0 : ℚ) ≤ 1 ∧
    (parse_time_string (format_time 1) = some (msTrunc 1) ∧
      0 ≤ 1 - msTrunc 1 ∧ 1 - msTrunc 1 < 1 / 1000 ∧
      (format_time 1).data =
        pad 2 (ftHours 1) ++ ':' :: pad 2 (ftMin 1) ++ ':' :: pad 2 ⌊ftSecs 1⌋ ++
          ',' :: pad 3 (ftMs 1)) :=
  ⟨zero_le_one, c4_codec_roundtrip 1 zero_le_one⟩

theorem string_eq_of_data {a b : String} (h : a.data = b.data) : a = b :=
  String.ext h

/-- C7 counterexample: `format_time (-1)` does not reject its negative
input — it returns the string `"-1:59:59,000"` (Python's floor
`divmod` wraps the remainder and the hour field goes negative). -/
theorem c7_counterexample : format_time (-1) = "-1:59:59,000" := by
  apply string_eq_of_data
  rw [format_time_data]
  have e1 : ftHours (-1) = -1 := by norm_num [ftHours]
  have e2 : ftMin (-1) = 59 := by norm_num [ftMin, ftRem, ftHours]
  have e3 : (⌊ftSecs (-1)⌋ : ℤ) = 59 := by
    norm_num [ftSecs, ftMin, ftRem, ftHours]
  have e4 : ftMs (-1) = 0 := by norm_num [ftMs, ftSecs, ftMin, ftRem, ftHours]
  rw [e1, e2, e3, e4]
  decide

/-- C7 (amended): `format_time` accepts negative input and produces a
formatted string rather than rejecting it; the string is non-empty and
begins with `'-'` (the negative hours field), so it is not a valid
`HH:MM:SS,mmm` timecode. -/
theorem c7_negative (t : ℚ) (ht : t < 0) :
    (format_time t).data ≠ [] ∧ (format_time t).data.head? = some '-' := by
  have hH : ftHours t < 0 := by
    have h1 := Int.floor_le (t / 3600)
    have h2 : t / 3600 < 0 := by
      apply div_neg_of_neg_of_pos ht
      norm_num
    unfold ftHours
    exact_mod_cast lt_of_le_of_lt h1 h2
  have hpad : pad 2 (ftHours t) = '-' :: padZeros 1 (natChars (ftHours t).natAbs) := by
    unfold pad
    rw [if_pos hH]
  constructor
  · exact format_time_ne_nil t
  · rw [format_time_data, List.head?_append_of_ne_nil _ (by simp [hpad]),
      List.head?_append_of_ne_nil _ (by simp [hpad]),
      List.head?_append_of_ne_nil _ (by simp [hpad]), hpad]
    rfl

/-- C7 witness: the amended statement at `t = -1`. -/
theorem c7_witness :
    (-1 : ℚ) < 0 ∧
    ((format_time (-1)).data ≠ [] ∧ (format_time (-1)).data.head? = some '-') :=
  ⟨neg_lt_zero.mpr zero_lt_one, c7_negative (-1) (neg_lt_zero.mpr zero_lt_one)⟩

/-! ## Claims C8 and C9: style-string color translation -/

/-- Hexadecimal digit (the characters of an `RRGGBB` color value). -/
def isHexDigitB (c : Char) : Bool :=
  c.isDigit || ('a' ≤ c && c ≤ 'f') || ('A' ≤ c && c ≤ 'F')

theorem hexDigit_ne_hash {c : Char} (h : isHexDigitB c = true) : c ≠ '#' := by
  intro he
  subst he
  simp [isHexDigitB] at h

theorem styleStr_some (c : StyleConfig) (h : styleTruthy (some c) = true) :
    styleStr (some c) = String.mk ("FontSize=".data ++ intChars (c.fontSize.getD 24) ++
      ",PrimaryColour=".data ++ (hex_to_ffmpeg (c.fontColor.getD "#ffffff")).data ++
      ",OutlineColour=".data ++ (hex_to_ffmpeg (c.outlineColor.getD "#000000")).data ++
      ",Outline=".data ++ intChars (c.outlineWidth.getD 2) ++
      ",MarginV=".data ++ intChars (c.marginV.getD 10)) := by
  unfold styleStr
  rw [if_pos h]

theorem hex_to_ffmpeg_hash {r1 r2 g1 g2 b1 b2 : Char} (h : r1 ≠ '#') :
    hex_to_ffmpeg (String.mk ['#', r1, r2, g1, g2, b1, b2]) =
      String.mk ['&', 'H', b1, b2, g1, g2, r1, r2, '&'] := by
  unfold hex_to_ffmpeg
  rw [if_neg (by simp)]
  have hs : (String.mk ['#', r1, r2, g1, g2, b1, b2]).data.dropWhile (· = '#') =
      [r1, r2, g1, g2, b1, b2] := by
    show List.dropWhile (· = '#') ('#' :: [r1, r2, g1, g2, b1, b2]) = _
    simp [List.dropWhile, h]
  rw [hs]
  rfl

/-- C8 (confirmed): a `fontColor` of `"#112233"` makes the primary-tool
style string contain the reversed-channel value `332211`; in general a
`#RRGGBB` color translates to `&HBBGGRR&` (blue, green, red order). -/
theorem c8_style_translation :
    (∀ cfg : StyleConfig, cfg.fontColor = some "#112233" →
      containsSeq "332211".data (styleStr (some cfg)).data = true) ∧
    (∀ r1 r2 g1 g2 b1 b2 : Char, isHexDigitB r1 = true → isHexDigitB r2 = true →
      isHexDigitB g1 = true → isHexDigitB g2 = true →
      isHexDigitB b1 = true → isHexDigitB b2 = true →
      hex_to_ffmpeg (String.mk ['#', r1, r2, g1, g2, b1, b2]) =
        String.mk ['&', 'H', b1, b2, g1, g2, r1, r2, '&']) := by
  constructor
  · intro cfg h
    have htruthy : styleTruthy (some cfg) = true := by
      simp [styleTruthy, h]
    have hcolor : hex_to_ffmpeg (cfg.fontColor.getD "#ffffff") = "&H332211&" := by
      rw [h]
      decide
    rw [styleStr_some cfg htruthy, hcolor]
    show containsSeq "332211".data ("FontSize=".data ++ intChars (cfg.fontSize.getD 24) ++
      ",PrimaryColour=".data ++ ("&H332211&" : String).data ++
      ",OutlineColour=".data ++ (hex_to_ffmpeg (cfg.outlineColor.getD "#000000")).data ++
      ",Outline=".data ++ intChars (cfg.outlineWidth.getD 2) ++
      ",MarginV=".data ++ intChars (cfg.marginV.getD 10)) = true
    have e : "FontSize=".data ++ intChars (cfg.fontSize.getD 24) ++
        ",PrimaryColour=".data ++ ("&H332211&" : String).data ++
        ",OutlineColour=".data ++ (hex_to_ffmpeg (cfg.outlineColor.getD "#000000")).data ++
        ",Outline=".data ++ intChars (cfg.outlineWidth.getD 2) ++
        ",MarginV=".data ++ intChars (cfg.marginV.getD 10) =
        ("FontSize=".data ++ intChars (cfg.fontSize.getD 24) ++
          ",PrimaryColour=".data ++ ['&', 'H']) ++ "332211".data ++
          (['&'] ++ ",OutlineColour=".data ++
            (hex_to_ffmpeg (cfg.outlineColor.getD "#000000")).data ++
            ",Outline=".data ++ intChars (cfg.outlineWidth.getD 2) ++
            ",MarginV=".data ++ intChars (cfg.marginV.getD 10)) := by
      have h1 : (("&H332211&" : String).data : List Char) =
          ['&', 'H'] ++ "332211".data ++ ['&'] := rfl
      rw [h1]
      simp
    rw [e]
    exact containsSeq_append_pat _ _ _
  · intro r1 r2 g1 g2 b1 b2 h1 h2 h3 h4 h5 h6
    exact hex_to_ffmpeg_hash (hexDigit_ne_hash h1)

/-- C8 witness: the theorem applied to the configuration
`{fontColor := "#112233"}` and to the concrete digits `112233`. -/
theorem c8_witness :
    (({ fontColor := some "#112233" } : StyleConfig).fontColor = some "#112233" ∧
      isHexDigitB '1' = true ∧ isHexDigitB '2' = true ∧ isHexDigitB '3' = true) ∧
    containsSeq "332211".data
      (styleStr (some ({ fontColor := some "#112233" } : StyleConfig))).data = true ∧
    hex_to_ffmpeg (String.mk ['#', '1', '1', '2', '2', '3', '3']) =
      String.mk ['&', 'H', '3', '3', '2', '2', '1', '1', '&'] :=
  ⟨⟨rfl, by decide, by decide, by decide⟩,
   c8_style_translation.1 { fontColor := some "#112233" } rfl,
   c8_style_translation.2 '1' '1' '2' '2' '3' '3' (by decide) (by decide)
     (by decide) (by decide) (by decide) (by decide)⟩

/-- C9 (confirmed): an empty color value, or one not beginning with
`'#'`, is silently replaced by white — `hex_to_ffmpeg` returns
`"&Hffffff&"` and the primary-tool style string carries
`PrimaryColour=&Hffffff&` — so a malformed color never makes style
construction fail. -/
theorem c9_malformed_color (s : String)
    (h : s = "" ∨ s.data.head? ≠ some '#') :
    hex_to_ffmpeg s = "&Hffffff&" ∧
    ∀ cfg : StyleConfig, cfg.fontColor = some s →
      containsSeq ",PrimaryColour=&Hffffff&".data (styleStr (some cfg)).data = true := by
  have hff : hex_to_ffmpeg s = "&Hffffff&" := by
    unfold hex_to_ffmpeg
    rw [if_pos ?hc]
    case hc =>
      rcases h with h | h
      · left
        rw [h]
      · right
        exact h
  refine ⟨hff, ?_⟩
  intro cfg hc
  have htruthy : styleTruthy (some cfg) = true := by
    simp [styleTruthy, hc]
  have hcolor : hex_to_ffmpeg (cfg.fontColor.getD "#ffffff") = "&Hffffff&" := by
    rw [hc]
    exact hff
  rw [styleStr_some cfg htruthy, hcolor]
  show containsSeq ",PrimaryColour=&Hffffff&".data
    ("FontSize=".data ++ intChars (cfg.fontSize.getD 24) ++
      ",PrimaryColour=".data ++ ("&Hffffff&" : String).data ++
      ",OutlineColour=".data ++ (hex_to_ffmpeg (cfg.outlineColor.getD "#000000")).data ++
      ",Outline=".data ++ intChars (cfg.outlineWidth.getD 2) ++
      ",MarginV=".data ++ intChars (cfg.marginV.getD 10)) = true
  have e : "FontSize=".data ++ intChars (cfg.fontSize.getD 24) ++
      ",PrimaryColour=".data ++ ("&Hffffff&" : String).data ++
      ",OutlineColour=".data ++ (hex_to_ffmpeg (cfg.outlineColor.getD "#000000")).data ++
      ",Outline=".data ++ intChars (cfg.outlineWidth.getD 2) ++
      ",MarginV=".data ++ intChars (cfg.marginV.getD 10) =
      ("FontSize=".data ++ intChars (cfg.fontSize.getD 24)) ++
        ",PrimaryColour=&Hffffff&".data ++
        (",OutlineColour=".data ++
          (hex_to_ffmpeg (cfg.outlineColor.getD "#000000")).data ++
          ",Outline=".data ++ intChars (cfg.outlineWidth.getD 2) ++
          ",MarginV=".data ++ intChars (cfg.marginV.getD 10)) := by
    have h1 : (",PrimaryColour=&Hffffff&".data : List Char) =
        ",PrimaryColour=".data ++ ("&Hffffff&" : String).data := rfl
    rw [h1]
    simp
  rw [e]
  exact containsSeq_append_pat _ _ _

/-- C9 witness: the theorem applied to the malformed color `"112233"`
(no leading `'#'`). -/
theorem c9_witness :
    (("112233" : String) = "" ∨ ("112233" : String).data.head? ≠ some '#') ∧
    (hex_to_ffmpeg "112233" = "&Hffffff&" ∧
      ∀ cfg : StyleConfig, cfg.fontColor = some "112233" →
        containsSeq ",PrimaryColour=&Hffffff&".data
          (styleStr (some cfg)).data = true) :=
  ⟨Or.inr (by decide), c9_malformed_color "112233" (Or.inr (by decide))⟩

/-! ## Claim C10: fallback compositor with zero overlay elements -/

/-- C10 (confirmed): when the parsed subtitle document yields zero
renderable overlay clips — each segment has empty text or its clip
construction fails (in particular when there are no segments at all) —
the fallback compositor skips compositing entirely (the composite
outcome, even an exception, is never consulted), re-encodes the base
video and returns the output path. -/
theorem c10_zero_clips (env : MoviepyEnv) (srtContent output_path : String)
    (subs : List Segment)
    (hparse : parse_srt_file srtContent = some subs)
    (hload : env.videoLoad = .ok (640, 480))
    (hwrite : env.writeVideo = .ok ())
    (hzero : ∀ s ∈ subs, s.text = "" ∨
      create_subtitle_clip env s.text s.start s.«end» (640, 480) = none) :
    add_subtitles_to_video_moviepy env srtContent output_path = .ok output_path := by
  unfold add_subtitles_to_video_moviepy
  rw [hparse, hload]
  have hnil : subs.filterMap (fun sub =>
      if sub.text ≠ "" then
        create_subtitle_clip env sub.text sub.start sub.«end» (640, 480)
      else none) = [] := by
    rw [List.filterMap_eq_nil_iff]
    intro s hs
    rcases hzero s hs with h | h
    · rw [if_neg (by simp [h])]
    · rw [h]
      split <;> rfl
  have hcond : ∀ a ∈ subs, ¬a.text = "" →
      create_subtitle_clip env a.text a.start a.«end» (640, 480) = none := by
    intro a ha hne
    rcases hzero a ha with h | h
    · exact absurd h hne
    · exact h
  simp [hnil, hwrite]
  rw [if_pos hcond]

/-- C10 witness: an empty subtitle document with a compositing
environment whose clip constructors and composite step all raise. -/
theorem c10_witness :
    (parse_srt_file "" = some [] ∧
      (MoviepyEnv.videoLoad
        { videoLoad := .ok (640, 480),
          textClipLabel := fun _ _ _ _ => .error "TextClip raised",
          textClipSimple := fun _ _ _ => .error "TextClip raised",
          composite := .error "composite raised",
          writeVideo := .ok () }) = .ok (640, 480)) ∧
    add_subtitles_to_video_moviepy
      { videoLoad := .ok (640, 480),
        textClipLabel := fun _ _ _ _ => .error "TextClip raised",
        textClipSimple := fun _ _ _ => .error "TextClip raised",
        composite := .error "composite raised",
        writeVideo := .ok () } "" "out.mp4" = .ok "out.mp4" :=
  ⟨⟨by decide, rfl⟩,
   c10_zero_clips _ "" "out.mp4" [] (by decide) rfl rfl (by simp)⟩

/-! ## Claim C3: primary/fallback contract of the burn operation -/

/-- A MoviePy environment every call of which raises (used to exhibit
runs whose fallback path fails). -/
def mpFailing (msg : String) : MoviepyEnv :=
  { videoLoad := .error msg,
    textClipLabel := fun _ _ _ _ => .error msg,
    textClipSimple := fun _ _ _ => .error msg,
    composite := .error msg,
    writeVideo := .error msg }

/-- C3 counterexample: with a primary tool failing with stderr
`"PRIMARYMSG"` and a fallback whose video load raises `"FALLBACKMSG"`,
the burn operation propagates exactly the fallback's message; the
primary tool's message is not contained in the propagated error, so
the error does not carry both underlying messages. -/
theorem c3_counterexample :
    add_subtitles_to_video
      { ffmpeg := .exitError "PRIMARYMSG",
        mp1 := mpFailing "FALLBACKMSG",
        mp2 := mpFailing "UNUSED" } "" "out.mp4" = .error "FALLBACKMSG" ∧
    containsSeq "PRIMARYMSG".data "FALLBACKMSG".data = false := by
  constructor
  · rfl
  · decide

/-- C3 (corrected): the burn operation attempts the primary tool first
(primary success means immediate success, with no fallback consulted);
on a primary non-zero exit the overall outcome is exactly the
fallback's outcome; when the primary tool is missing the fallback runs
(twice at worst) and a first successful fallback gives overall
success. In particular when both paths fail, the propagated error
carries only the fallback's message, not both. -/
theorem c3_fallback (env : BurnEnv) (srt out : String) :
    (env.ffmpeg = .success → add_subtitles_to_video env srt out = .ok out) ∧
    (∀ stderr, env.ffmpeg = .exitError stderr →
      add_subtitles_to_video env srt out =
        add_subtitles_to_video_moviepy env.mp1 srt out) ∧
    (env.ffmpeg = .notFound →
      add_subtitles_to_video env srt out =
        (match add_subtitles_to_video_moviepy env.mp1 srt out with
          | .ok r => .ok r
          | .error _ => add_subtitles_to_video_moviepy env.mp2 srt out)) := by
  refine ⟨?_, ?_, ?_⟩
  · intro h
    unfold add_subtitles_to_video add_subtitles_to_video_with_srt
    rw [h]
  · intro stderr h
    unfold add_subtitles_to_video add_subtitles_to_video_with_srt
    rw [h]
  · intro h
    unfold add_subtitles_to_video add_subtitles_to_video_with_srt
    rw [h]

/-- C3 witness: the amended theorem at a primary-failing environment
with a failing fallback, and at a primary-successful environment. -/
theorem c3_witness :
    (({ ffmpeg := .exitError "boom",
        mp1 := mpFailing "fb",
        mp2 := mpFailing "fb2" } : BurnEnv).ffmpeg = .exitError "boom" ∧
      add_subtitles_to_video
        { ffmpeg := .exitError "boom",
          mp1 := mpFailing "fb",
          mp2 := mpFailing "fb2" } "" "out.mp4" =
        add_subtitles_to_video_moviepy (mpFailing "fb") "" "out.mp4") ∧
    (({ ffmpeg := .success,
        mp1 := mpFailing "fb",
        mp2 := mpFailing "fb2" } : BurnEnv).ffmpeg = .success ∧
      add_subtitles_to_video
        { ffmpeg := .success,
          mp1 := mpFailing "fb",
          mp2 := mpFailing "fb2" } "" "out.mp4" = .ok "out.mp4") :=
  ⟨⟨rfl, (c3_fallback
      { ffmpeg := .exitError "boom", mp1 := mpFailing "fb", mp2 := mpFailing "fb2" }
      "" "out.mp4").2.1 "boom" rfl⟩,
   ⟨rfl, (c3_fallback
      { ffmpeg := .success, mp1 := mpFailing "fb", mp2 := mpFailing "fb2" }
      "" "out.mp4").1 rfl⟩⟩

/-! ## Claim C5: the saved and the burned subtitle document coincide -/

theorem run_trace_mem (env : BurnEnv) (segs : List Segment) (out : String)
    (st : PState) :
    Ev.burned (create_srt_content segs) ∈
      (add_subtitles_to_video_run env segs out st).2.trace ∧
    ∀ e ∈ st.trace, e ∈ (add_subtitles_to_video_run env segs out st).2.trace := by
  have hsrt : ((pwrite "temp_subtitles.srt" (create_srt_content segs) st).fs
      "temp_subtitles.srt").getD "" = create_srt_content segs := by
    simp [pwrite]
  unfold add_subtitles_to_video_run
  simp only [hsrt]
  constructor
  · split <;> split <;> simp [pwrite, premove]
  · intro e he
    split <;> split <;> simp [pwrite, premove, he]

/-- C5 (confirmed): in every pipeline run that reaches the compositing
step, the subtitle document written to the subtitle output path and the
subtitle document the burn step consumes are the same text — both are
the serialization of the transcribed segments, with no re-derivation in
between. -/
theorem c5_no_rederivation (env : PipelineEnv) (out_vid out_srt : String)
    (cleanup : Bool) (st0 : PState) (audio : String) (segs : List Segment)
    (hext : env.extractAudio = .ok audio) (htr : env.transcribe = .ok segs) :
    ∃ c, Ev.wrote out_srt c ∈
        (generate_subtitles env out_vid out_srt cleanup st0).2.trace ∧
      Ev.burned c ∈ (generate_subtitles env out_vid out_srt cleanup st0).2.trace ∧
      c = create_srt_content segs := by
  refine ⟨create_srt_content segs, ?_, ?_, rfl⟩ <;>
  · unfold generate_subtitles
    rw [hext, htr]
    obtain ⟨hburn, hpres⟩ := run_trace_mem env.burn segs out_vid
      (pwrite out_srt (create_srt_content segs) (pwrite "temp_audio.wav" audio st0))
    have hwrote : Ev.wrote out_srt (create_srt_content segs) ∈
        (pwrite out_srt (create_srt_content segs)
          (pwrite "temp_audio.wav" audio st0)).trace := by
      simp [pwrite]
    have hmem := hpres _ hwrote
    rcases hrun : add_subtitles_to_video_run env.burn segs out_vid
        (pwrite out_srt (create_srt_content segs)
          (pwrite "temp_audio.wav" audio st0)) with ⟨res, st3⟩
    rw [hrun] at hburn hmem
    simp only [hrun]
    rcases res with e | r <;> simp only [] <;> split <;> simp [premove, hburn, hmem]

/-- C5 witness: the theorem at a concrete all-success run. -/
theorem c5_witness :
    (({ extractAudio := .ok "AUDIO", transcribe := .ok [],
        burn := { ffmpeg := .success, mp1 := mpFailing "u1", mp2 := mpFailing "u2" } }
        : PipelineEnv).extractAudio = .ok "AUDIO") ∧
    ∃ c, Ev.wrote "out.srt" c ∈
        (generate_subtitles
          { extractAudio := .ok "AUDIO", transcribe := .ok [],
            burn := { ffmpeg := .success, mp1 := mpFailing "u1", mp2 := mpFailing "u2" } }
          "out.mp4" "out.srt" true ⟨fun _ => none, []⟩).2.trace ∧
      Ev.burned c ∈
        (generate_subtitles
          { extractAudio := .ok "AUDIO", transcribe := .ok [],
            burn := { ffmpeg := .success, mp1 := mpFailing "u1", mp2 := mpFailing "u2" } }
          "out.mp4" "out.srt" true ⟨fun _ => none, []⟩).2.trace ∧
      c = create_srt_content [] :=
  ⟨rfl, c5_no_rederivation _ "out.mp4" "out.srt" true ⟨fun _ => none, []⟩
    "AUDIO" [] rfl rfl⟩

/-! ## Claim C6: cleanup of the transient audio file -/

theorem run_removed (env : BurnEnv) (segs : List Segment) (out : String)
    (st : PState) (p : String)
    (hp : Ev.removed p ∈ (add_subtitles_to_video_run env segs out st).2.trace) :
    Ev.removed p ∈ st.trace ∨ p = "temp_subtitles.srt" := by
  unfold add_subtitles_to_video_run at hp
  simp only [] at hp
  revert hp
  split <;> split <;> intro hp <;> simp [pwrite, premove] at hp <;> tauto

theorem gen_removed (env : PipelineEnv) (out_vid out_srt : String)
    (cleanup : Bool) (st0 : PState) (p : String)
    (hp : Ev.removed p ∈ (generate_subtitles env out_vid out_srt cleanup st0).2.trace) :
    Ev.removed p ∈ st0.trace ∨ p = "temp_audio.wav" ∨ p = "temp_subtitles.srt" := by
  unfold generate_subtitles at hp
  rcases hea : env.extractAudio with e | audio
  · simp only [hea] at hp
    revert hp
    split <;> intro hp <;> (try simp [premove] at hp) <;> tauto
  · simp only [hea] at hp
    rcases htr : env.transcribe with e | segs
    · simp only [htr] at hp
      revert hp
      split <;> intro hp <;> (try simp [pwrite, premove] at hp) <;> tauto
    · simp only [htr] at hp
      rcases hrun : add_subtitles_to_video_run env.burn segs out_vid
          (pwrite out_srt (create_srt_content segs)
            (pwrite "temp_audio.wav" audio st0)) with ⟨res, st3⟩
      simp only [hrun] at hp
      have hst3 : Ev.removed p ∈ st3.trace →
          Ev.removed p ∈ st0.trace ∨ p = "temp_audio.wav" ∨
            p = "temp_subtitles.srt" := by
        intro h3
        have := run_removed env.burn segs out_vid
          (pwrite out_srt (create_srt_content segs)
            (pwrite "temp_audio.wav" audio st0)) p (by rw [hrun]; exact h3)
        rcases this with h | h
        · simp [pwrite] at h
          tauto
        · tauto
      revert hp
      rcases res with e | r <;>
        · simp only []
          split <;> intro hp <;> (try simp [premove] at hp) <;>
            first
            | exact hst3 hp
            | (rcases hp with hp | hp
               · exact hst3 hp
               · tauto)

theorem gen_audio_removed (env : PipelineEnv) (out_vid out_srt : String)
    (st0 : PState) :
    (generate_subtitles env out_vid out_srt true st0).2.fs "temp_audio.wav" = none := by
  unfold generate_subtitles
  simp only []
  split
  · simp [premove]
  · rename_i h
    rw [← Option.not_isSome_iff_eq_none]
    intro hs
    exact h ⟨trivial, hs⟩

/-- C6 counterexample: a successful pipeline run with `cleanup_temp`
unset leaves the transient audio file in place — deletion of the
intermediate audio file is not guaranteed on every exit path. -/
theorem c6_counterexample :
    (generate_subtitles
      { extractAudio := .ok "AUDIO", transcribe := .ok [],
        burn := { ffmpeg := .success, mp1 := mpFailing "u1", mp2 := mpFailing "u2" } }
      "out.mp4" "out.srt" false ⟨fun _ => none, []⟩).1 =
        .ok ("out.mp4", "out.srt") ∧
    (generate_subtitles
      { extractAudio := .ok "AUDIO", transcribe := .ok [],
        burn := { ffmpeg := .success, mp1 := mpFailing "u1", mp2 := mpFailing "u2" } }
      "out.mp4" "out.srt" false ⟨fun _ => none, []⟩).2.fs "temp_audio.wav" =
        some "AUDIO" :=
  ⟨rfl, rfl⟩

/-- C6 (corrected): when `cleanup_temp` is set (its default), every
exit path of the orchestrator — this theorem quantifies over every
outcome of extraction, transcription and burning — ends with the
transient audio file absent; and starting from an empty trace, no
deliverable path distinct from the two temp names is ever removed. -/
theorem c6_cleanup (env : PipelineEnv) (out_vid out_srt : String) (st0 : PState)
    (h0 : st0.trace = [])
    (hv1 : out_vid ≠ "temp_audio.wav") (hv2 : out_vid ≠ "temp_subtitles.srt")
    (hs1 : out_srt ≠ "temp_audio.wav") (hs2 : out_srt ≠ "temp_subtitles.srt") :
    (generate_subtitles env out_vid out_srt true st0).2.fs "temp_audio.wav" = none ∧
    Ev.removed out_vid ∉ (generate_subtitles env out_vid out_srt true st0).2.trace ∧
    Ev.removed out_srt ∉ (generate_subtitles env out_vid out_srt true st0).2.trace := by
  refine ⟨gen_audio_removed env out_vid out_srt st0, ?_, ?_⟩
  · intro hmem
    rcases gen_removed env out_vid out_srt true st0 out_vid hmem with h | h | h
    · rw [h0] at h
      exact absurd h (List.not_mem_nil _)
    · exact hv1 h
    · exact hv2 h
  · intro hmem
    rcases gen_removed env out_vid out_srt true st0 out_srt hmem with h | h | h
    · rw [h0] at h
      exact absurd h (List.not_mem_nil _)
    · exact hs1 h
    · exact hs2 h

/-- C6 witness: the amended theorem at a concrete run whose burn step
fails (an error exit path), with distinct output paths. -/
theorem c6_witness :
    ((⟨fun _ => none, []⟩ : PState).trace = [] ∧
      ("out.mp4" : String) ≠ "temp_audio.wav" ∧
      ("out.srt" : String) ≠ "temp_audio.wav") ∧
    ((generate_subtitles
        { extractAudio := .ok "AUDIO", transcribe := .ok [],
          burn := { ffmpeg := .exitError "boom", mp1 := mpFailing "fb",
                    mp2 := mpFailing "fb2" } }
        "out.mp4" "out.srt" true ⟨fun _ => none, []⟩).2.fs "temp_audio.wav" = none ∧
      Ev.removed "out.mp4" ∉ (generate_subtitles
        { extractAudio := .ok "AUDIO", transcribe := .ok [],
          burn := { ffmpeg := .exitError "boom", mp1 := mpFailing "fb",
                    mp2 := mpFailing "fb2" } }
        "out.mp4" "out.srt" true ⟨fun _ => none, []⟩).2.trace ∧
      Ev.removed "out.srt" ∉ (generate_subtitles
        { extractAudio := .ok "AUDIO", transcribe := .ok [],
          burn := { ffmpeg := .exitError "boom", mp1 := mpFailing "fb",
                    mp2 := mpFailing "fb2" } }
        "out.mp4" "out.srt" true ⟨fun _ => none, []⟩).2.trace) :=
  ⟨⟨rfl, by decide, by decide⟩,
   c6_cleanup
     { extractAudio := .ok "AUDIO", transcribe := .ok [],
       burn := { ffmpeg := .exitError "boom", mp1 := mpFailing "fb",
                 mp2 := mpFailing "fb2" } }
     "out.mp4" "out.srt" ⟨fun _ => none, []⟩ rfl
     (by decide) (by decide) (by decide) (by decide)⟩
